import Mathlib

/-! # GitOps deployment operator: reconciliation engine

A shallow embedding of the four Go source files of the operator

* `api/v1alpha1/gitopsdeployment_types.go`  (record shapes),
* `pkg/git/repo_manager.go`                 (`RepoManager`),
* `pkg/k8s/k8s_manager.go`                  (`K8sManager`),
* `internal/controller/gitopsdeployment_controller.go` (`Reconcile`, `updateStatus`),

followed by the theorems about them.

Conventions of the embedding.

* A Go `error` is `Option GoError`; `none` is `nil`.
* Every call that leaves the process (file system, go-git, the cluster API, the clock)
  is answered by an oracle held in a structure (`GitWorld`, `FileSystem`, `Client`,
  `Env`).  The cluster client threads an explicit state.
* Each operation returns, next to its Go results, the list of collaborator calls it
  issued (`Event`), in program order.  The list is a ghost value: the Go code does not
  compute it, it is what an observer of the collaborators would record.
* The Go standard-library functions whose result the code branches on or forwards
  (`filepath.Clean`, `filepath.Join`, `filepath.Ext`, `fs.ValidPath` as `os.DirFS`
  applies it, `time.ParseDuration`) are modelled after their Unix implementation; the strings they scan are scanned
  character by character (the separators, dots and digits they look for are ASCII).
-/

namespace GitOps

/-! ## Go errors -/

/-- Go error value: its `Error()` text and the two classifications the code asks for,
`apierrors.IsNotFound` (through `client.IgnoreNotFound`) and `os.IsNotExist`. -/
structure GoError where
  text : String
  notFound : Bool := false
  notExist : Bool := false
deriving DecidableEq, Repr

/-- Go `error` interface value; `none` is `nil`. -/
abbrev error := Option GoError

/-- Go `os.IsNotExist(err)`; false on `nil`. -/
def osIsNotExist : error → Bool
  | none => false
  | some e => e.notExist

/-- Controller-runtime `client.IgnoreNotFound(err)`: `nil` for a not-found error, the
error itself otherwise. -/
def IgnoreNotFound : error → error
  | none => none
  | some e => if e.notFound then none else some e

/-! ## `path/filepath` (Unix) -/

/-- The `..` step of `filepath.Clean` on the output buffer (held reversed): drop the
last byte, then keep dropping while the buffer is longer than `dotdot` and the byte
just dropped is not a separator. -/
def cleanBacktrack (dotdot : Nat) : List Char → List Char
  | [] => []
  | c :: rest =>
    if rest.length > dotdot ∧ c ≠ '/' then cleanBacktrack dotdot rest else rest

/-- The output buffer of `filepath.Clean` after a `..` element. -/
def cleanDotDot (rooted : Bool) (out : List Char) (dotdot : Nat) : List Char × Nat :=
  if out.length > dotdot then (cleanBacktrack dotdot out, dotdot)
  else if !rooted then
    let out1 := if out.length > 0 then '/' :: out else out
    let out2 := '.' :: '.' :: out1
    (out2, out2.length)
  else (out, dotdot)

/-- The separator `filepath.Clean` writes before a real path element. -/
def cleanSep (rooted : Bool) (out : List Char) : List Char :=
  if (rooted && out.length != 1) || (!rooted && out.length != 0) then '/' :: out else out

/-- Where the main loop of `filepath.Clean` stands: at the start of a path element, in
the middle of copying a real element, or on the second dot of a `..` element. -/
inductive CleanMode where
  | start
  | copy
  | skip
deriving DecidableEq, Repr

/-- The test `r == n || os.IsPathSeparator(path[r])` of `filepath.Clean`. -/
def atSepOrEnd : List Char → Bool
  | [] => true
  | c :: _ => decide (c = '/')

/-- The main loop of `filepath.Clean` over the unread input; `out` is the output
buffer, reversed, and `dd` the index `dotdot`. -/
def cleanLoop (rooted : Bool) : CleanMode → List Char → List Char → Nat → List Char
  | _, [], out, _ => out
  | .skip, _ :: t, out, dd => cleanLoop rooted .start t out dd
  | .copy, c :: t, out, dd =>
    if c = '/' then cleanLoop rooted .start t out dd
    else cleanLoop rooted .copy t (c :: out) dd
  | .start, c :: t, out, dd =>
    if c = '/' then cleanLoop rooted .start t out dd
    else if c = '.' ∧ atSepOrEnd t then cleanLoop rooted .start t out dd
    else if c = '.' ∧ t.head? = some '.' ∧ atSepOrEnd t.tail then
      cleanLoop rooted .skip t (cleanDotDot rooted out dd).1 (cleanDotDot rooted out dd).2
    else cleanLoop rooted .copy t (c :: cleanSep rooted out) dd

/-- Go `filepath.Clean` on a list of characters. -/
def cleanChars (path : List Char) : List Char :=
  match path with
  | [] => ['.']
  | c :: t =>
    let rooted := decide (c = '/')
    let out :=
      if rooted then cleanLoop true .start t ['/'] 1
      else cleanLoop false .start (c :: t) [] 0
    if out.length = 0 then ['.'] else out.reverse

/-- Go `filepath.Clean`. -/
def filepathClean (path : String) : String :=
  String.mk (cleanChars path.data)

/-- Go `strings.Join(elems, "/")`. -/
def joinSlash : List String → String
  | [] => ""
  | [e] => e
  | e :: es => e ++ "/" ++ joinSlash es

/-- Go `filepath.Join`: drop the leading empty elements, join the rest with the
separator and clean; the empty string when every element is empty. -/
def filepathJoin : List String → String
  | [] => ""
  | e :: es => if e ≠ "" then filepathClean (joinSlash (e :: es)) else filepathJoin es

/-- The backwards scan of `filepath.Ext`: `rev` is the unread part of the path,
reversed; `acc` is what has been passed already. -/
def extScan : List Char → List Char → List Char
  | [], _ => []
  | c :: rev, acc =>
    if c = '/' then [] else if c = '.' then '.' :: acc else extScan rev (c :: acc)

/-- Go `filepath.Ext`: the suffix starting at the last dot of the last path element,
empty when that element has no dot. -/
def filepathExt (path : String) : String :=
  String.mk (extScan path.data.reverse [])

/-! ## `io/fs` and `os.DirFS` -/

/-- The test of `fs.ValidPath` on one element of a name: it is not empty, not `.` and
not `..`. -/
def validElement (elem : List Char) : Bool :=
  decide (elem ≠ []) && decide (elem ≠ ['.']) && decide (elem ≠ ['.', '.'])

/-- The loop of `fs.ValidPath` over the elements of a name; `elem` is the part of the
current element that has been passed. -/
def validPathLoop : List Char → List Char → Bool
  | [], elem => validElement elem
  | c :: t, elem =>
    if c = '/' then validElement elem && validPathLoop t [] else validPathLoop t (elem ++ [c])

/-- Go `fs.ValidPath`: the name is `.`, or a sequence of elements separated by single
slashes, none of them empty, `.` or `..`; a name that starts or ends with a slash is
not valid. -/
def fsValidPath (name : String) : Bool :=
  decide (name = ".") || validPathLoop name.data []

/-- Whether `os.DirFS` resolves a name to a file: the name is valid by `fs.ValidPath`
and holds no NUL byte. -/
def dirFSAccepts (name : String) : Bool :=
  fsValidPath name && !name.data.contains (Char.ofNat 0)

/-- The error of `os.DirFS` on a name it does not accept: a `PathError` around
`ErrInvalid`. -/
def errInvalidName (name : String) : GoError :=
  { text := "readfile " ++ name ++ ": invalid argument" }

/-! ## `time.ParseDuration` -/

/-- The two places where `time.ParseDuration` leaves integer arithmetic. -/
structure TimeLib where
  /-- The value `uint64(float64(f) * (float64(unit) / scale))` with `scale = 10 ^ k`. -/
  fracNanos : Nat → Nat → Nat → Nat
  /-- The unexported `time.quote`. -/
  quote : String → String

/-- Go `time.Duration`: a signed count of nanoseconds. -/
abbrev Duration := Int

def Nanosecond : Nat := 1
def Microsecond : Nat := 1000 * Nanosecond
def Millisecond : Nat := 1000 * Microsecond
def Second : Nat := 1000 * Millisecond
def Minute : Nat := 60 * Second
def Hour : Nat := 60 * Minute

/-- The table `unitMap` of package `time`. -/
def unitMap (u : List Char) : Option Nat :=
  if u = ['n', 's'] then some Nanosecond
  else if u = ['u', 's'] then some Microsecond
  else if u = ['µ', 's'] then some Microsecond
  else if u = ['μ', 's'] then some Microsecond
  else if u = ['m', 's'] then some Millisecond
  else if u = ['s'] then some Second
  else if u = ['m'] then some Minute
  else if u = ['h'] then some Hour
  else none

/-- Whether a byte is `[0-9]`. -/
def isDigit (c : Char) : Bool := decide ('0' ≤ c) && decide (c ≤ '9')

/-- Go `leadingInt`: the leading `[0-9]*` as a number and the rest; `none` is
`errLeadingInt` (overflow). -/
def leadingInt (x : Nat) : List Char → Option (Nat × List Char)
  | [] => some (x, [])
  | c :: s =>
    if !isDigit c then some (x, c :: s)
    else if x > 2 ^ 63 / 10 then none
    else
      let y := x * 10 + (c.toNat - '0'.toNat)
      if y > 2 ^ 63 then none else leadingInt y s

/-- Go `leadingFraction`: the leading `[0-9]*` as a number, the decimal exponent of
its `scale`, and the rest; digits after an overflow are consumed and ignored. -/
def leadingFraction (x k : Nat) (overflow : Bool) : List Char → Nat × Nat × List Char
  | [] => (x, k, [])
  | c :: s =>
    if !isDigit c then (x, k, c :: s)
    else if overflow then leadingFraction x k true s
    else if x > (2 ^ 63 - 1) / 10 then leadingFraction x k true s
    else
      let y := x * 10 + (c.toNat - '0'.toNat)
      if y > 2 ^ 63 then leadingFraction x k true s
      else leadingFraction y (k + 1) false s

/-- The error `time: invalid duration <quoted input>`. -/
def errInvalidDuration (lib : TimeLib) (orig : String) : GoError :=
  { text := "time: invalid duration " ++ lib.quote orig }

/-- Whether a byte ends the unit name: a dot or a digit. -/
def endsUnit (c : Char) : Bool := decide (c = '.') || isDigit c

/-- The `for s != ""` loop of `time.ParseDuration`; `d` is the sum so far.  Every
round consumes at least the one byte of a unit, so a fuel above the length of `s` is
never used up; `none` is the fuel running out. -/
def parseLoop (lib : TimeLib) (orig : String) : Nat → List Char → Nat →
    Option (Except GoError Nat)
  | 0, _, _ => none
  | fuel + 1, s, d =>
    match s with
    | [] => some (.ok d)
    | c :: _ =>
      if !(decide (c = '.') || isDigit c) then some (.error (errInvalidDuration lib orig))
      else
        match leadingInt 0 s with
        | none => some (.error (errInvalidDuration lib orig))
        | some (v, s1) =>
          let pre := s.length != s1.length
          let frac : Nat × Nat × List Char × Bool :=
            if s1.head? = some '.' then
              let r := leadingFraction 0 0 false s1.tail
              (r.1, r.2.1, r.2.2, s1.tail.length != r.2.2.length)
            else (0, 0, s1, false)
          let f := frac.1
          let k := frac.2.1
          let s3 := frac.2.2.1
          let post := frac.2.2.2
          if !pre && !post then some (.error (errInvalidDuration lib orig))
          else
            let u := s3.takeWhile (fun c => !endsUnit c)
            let s4 := s3.dropWhile (fun c => !endsUnit c)
            if u = [] then
              some (.error { text := "time: missing unit in duration " ++ lib.quote orig })
            else
              match unitMap u with
              | none =>
                some (.error { text := "time: unknown unit " ++ lib.quote (String.mk u)
                                        ++ " in duration " ++ lib.quote orig })
              | some unit =>
                if v > 2 ^ 63 / unit then some (.error (errInvalidDuration lib orig))
                else if f > 0 then
                  let v2 := (v * unit + lib.fracNanos f unit k) % 2 ^ 64
                  if v2 > 2 ^ 63 then some (.error (errInvalidDuration lib orig))
                  else if (d + v2) % 2 ^ 64 > 2 ^ 63 then
                    some (.error (errInvalidDuration lib orig))
                  else parseLoop lib orig fuel s4 ((d + v2) % 2 ^ 64)
                else if (d + v * unit) % 2 ^ 64 > 2 ^ 63 then
                  some (.error (errInvalidDuration lib orig))
                else parseLoop lib orig fuel s4 ((d + v * unit) % 2 ^ 64)

/-- The step `Consume [-+]?` of `time.ParseDuration`: whether the sign is a minus, and
the rest. -/
def consumeSign (s : List Char) : Bool × List Char :=
  if s.head? = some '-' then (true, s.tail)
  else if s.head? = some '+' then (false, s.tail)
  else (false, s)

/-- What `time.ParseDuration` returns once its loop has ended with the sum `d`. -/
def finishDuration (lib : TimeLib) (orig : String) (neg : Bool) (d : Nat) :
    Except GoError Duration :=
  if neg then .ok (-(d : Int))
  else if d > 2 ^ 63 - 1 then .error (errInvalidDuration lib orig)
  else .ok (d : Int)

/-- Go `time.ParseDuration`. -/
def ParseDuration (lib : TimeLib) (orig : String) : Except GoError Duration :=
  let neg := (consumeSign orig.data).1
  let s := (consumeSign orig.data).2
  if s = ['0'] then .ok 0
  else if s = [] then .error (errInvalidDuration lib orig)
  else
    match parseLoop lib orig (s.length + 1) s 0 with
    | none => .error (errInvalidDuration lib orig)
    | some (.error e) => .error e
    | some (.ok d) => finishDuration lib orig neg d

/-! ## `api/v1alpha1`: the persisted record -/

/-- A `metav1.Time`, as a reading of the clock. -/
abbrev Time := Nat

/-- The type `metav1.ConditionStatus`. -/
inductive ConditionStatus where
  | ConditionTrue
  | ConditionFalse
  | ConditionUnknown
deriving DecidableEq, Repr

/-- The fields of `metav1.Condition` that the controller sets. -/
structure Condition where
  type : String
  Status : ConditionStatus
  Reason : String
  Message : String
  LastTransitionTime : Time
deriving DecidableEq, Repr

/-- The desired state of a GitOpsDeployment. -/
structure GitOpsDeploymentSpec where
  RepoURL : String
  Branch : String
  Path : String
  Interval : String
deriving DecidableEq, Repr

/-- The observed state of a GitOpsDeployment. -/
structure GitOpsDeploymentStatus where
  Synced : Bool
  LastSyncTime : Time
  Conditions : List Condition
deriving DecidableEq, Repr

/-- The GitOpsDeployment record; of its object metadata the code reads the name. -/
structure GitOpsDeployment where
  Name : String
  Namespace : String
  Spec : GitOpsDeploymentSpec
  Status : GitOpsDeploymentStatus
deriving DecidableEq, Repr

/-- The key `types.NamespacedName` of a reconcile request. -/
structure NamespacedName where
  Namespace : String
  Name : String
deriving DecidableEq, Repr

/-- Controller-runtime `ctrl.Result`. -/
structure Result where
  Requeue : Bool := false
  RequeueAfter : Duration := 0
deriving DecidableEq, Repr

/-! ## Cluster objects and collaborator calls -/

/-- A decoded manifest document (`unstructured.Unstructured`): its type, its identity,
its concurrency token (`0` is unset) and the rest of the document. -/
structure Unstructured where
  APIVersion : String
  Kind : String
  Namespace : String
  Name : String
  ResourceVersion : Nat
  Payload : String
deriving DecidableEq, Repr

/-- Controller-runtime `client.ObjectKey`. -/
abbrev ObjectKey := NamespacedName

/-- Controller-runtime `client.ObjectKeyFromObject`. -/
def ObjectKeyFromObject (obj : Unstructured) : ObjectKey :=
  { Namespace := obj.Namespace, Name := obj.Name }

/-- One call on a collaborator, or the entry into one of the two operations of
`K8sManager` whose invocations are counted. -/
inductive Event where
  | stat (path : String)
  | plainClone (path url referenceName : String)
  | plainOpen (path : String)
  | worktree (path : String)
  | pull (path remoteName : String)
  | applyManifests (dir : String)
  | applyObject (obj : Unstructured)
  | get (key : ObjectKey) (into : Unstructured)
  | create (obj : Unstructured)
  | update (obj : Unstructured)
  | getDeployment (key : NamespacedName)
  | statusUpdate (deployment : GitOpsDeployment)
deriving DecidableEq, Repr

/-! ## `pkg/git`: `RepoManager` -/

/-- The answers of the file system and of go-git to the calls of `RepoManager`. -/
structure GitWorld where
  /-- The error of `os.Stat(path)`. -/
  stat : String → error
  /-- The error of `git.PlainClone(path, false, &CloneOptions{URL, ReferenceName})`. -/
  plainClone : String → String → String → error
  /-- The error of `git.PlainOpen(path)`. -/
  plainOpen : String → error
  /-- The error of `repo.Worktree()` on the repository opened at `path`. -/
  worktree : String → error
  /-- The error of `workTree.Pull(&PullOptions{RemoteName})` in the repository at
  `path`. -/
  pull : String → String → error

/-- The value `git.NoErrAlreadyUpToDate` of go-git: what `Worktree.Pull` returns when
the pull found nothing new. -/
def NoErrAlreadyUpToDate : GoError := { text := "already up-to-date" }

/-- The result of an operation of `RepoManager`: its error and the calls it issued. -/
structure GitOut where
  err : error
  trace : List Event
deriving DecidableEq, Repr

/-- RepoManager manages Git repository operations. -/
structure RepoManager where
  RepoURL : String
  Branch : String
  RepoDir : String
deriving DecidableEq, Repr

def NewRepoManager (url branch name : String) : RepoManager :=
  { RepoURL := url, Branch := branch, RepoDir := filepathJoin ["/tmp", name] }

/-- Clones the repository to the local directory. -/
def RepoManager.cloneRepo (rm : RepoManager) (w : GitWorld) : GitOut :=
  let referenceName := "refs/heads/" ++ rm.Branch
  { err := w.plainClone rm.RepoDir rm.RepoURL referenceName,
    trace := [.plainClone rm.RepoDir rm.RepoURL referenceName] }

/-- Pulls the latest changes from the remote repository. -/
def RepoManager.pullRepo (rm : RepoManager) (w : GitWorld) : GitOut :=
  match w.plainOpen rm.RepoDir with
  | some err => { err := some err, trace := [.plainOpen rm.RepoDir] }
  | none =>
    match w.worktree rm.RepoDir with
    | some err => { err := some err, trace := [.plainOpen rm.RepoDir, .worktree rm.RepoDir] }
    | none =>
      { err := w.pull rm.RepoDir "origin",
        trace := [.plainOpen rm.RepoDir, .worktree rm.RepoDir, .pull rm.RepoDir "origin"] }

/-- CloneOrPull ensures the local repository is up to date. -/
def RepoManager.CloneOrPull (rm : RepoManager) (w : GitWorld) : GitOut :=
  if osIsNotExist (w.stat rm.RepoDir) then
    { err := (rm.cloneRepo w).err, trace := .stat rm.RepoDir :: (rm.cloneRepo w).trace }
  else
    { err := (rm.pullRepo w).err, trace := .stat rm.RepoDir :: (rm.pullRepo w).trace }

/-- GetManifestsPath constructs the full path to the manifests directory within the
repository. -/
def RepoManager.GetManifestsPath (rm : RepoManager) (subPath : String) : String :=
  filepathJoin [rm.RepoDir, subPath]

def GetRepoPath (name path : String) : String :=
  filepathJoin ["/tmp", name, path]

/-! ## `pkg/k8s`: `K8sManager` -/

/-- The cluster client (`client.Client`) on manifest objects, over a store state `σ`.
`get key into` reads the object of the type of `into` stored under `key`. -/
structure Client (σ : Type) where
  get : σ → ObjectKey → Unstructured → Except GoError Unstructured
  create : σ → Unstructured → error × σ
  update : σ → Unstructured → error × σ

/-- The result of an operation of `K8sManager`: its error, the store it leaves and the
calls it issued. -/
structure Out (σ : Type) where
  err : error
  state : σ
  trace : List Event

/-- Creates or updates a Kubernetes resource. -/
def applyObject {σ : Type} (k : Client σ) (st : σ) (obj : Unstructured) : Out σ :=
  let obj1 := { obj with Namespace := "default" }
  let key := ObjectKeyFromObject obj1
  let existing := obj1
  match k.get st key existing with
  | .error _ =>
    { err := (k.create st obj1).1, state := (k.create st obj1).2,
      trace := [.applyObject obj, .get key existing, .create obj1] }
  | .ok found =>
    let obj2 := { obj1 with ResourceVersion := found.ResourceVersion }
    { err := (k.update st obj2).1, state := (k.update st obj2).2,
      trace := [.applyObject obj, .get key existing, .update obj2] }

/-- What one call of `decoder.Decode` yields before the end of the stream: a document,
or an error. -/
inductive DecodeResult where
  | doc (obj : Unstructured)
  | fail (err : GoError)
deriving DecidableEq, Repr

/-- An entry of the directory tree as `filepath.WalkDir` meets it.  A file carries the
outcome of `os.ReadFile` on it, the data read being given as the successive results of
the YAML/JSON decoder on them (the stream ends with `io.EOF` after the last one).  A
directory carries the error of `os.ReadDir`, if any, and its entries in the order
`os.ReadDir` lists them. -/
inductive FsNode where
  | file (name : String) (read : Except GoError (List DecodeResult))
  | dir (name : String) (readDir : error) (entries : List FsNode)

/-- The method `d.Name()` of a directory entry. -/
def FsNode.Name : FsNode → String
  | .file name _ => name
  | .dir name _ _ => name

/-- The method `d.IsDir()` of a directory entry. -/
def FsNode.IsDir : FsNode → Bool
  | .file _ _ => false
  | .dir _ _ _ => true

/-- The outcome of `os.ReadFile` on an entry. -/
def FsNode.ReadFile : FsNode → Except GoError (List DecodeResult)
  | .file _ read => read
  | .dir _ _ _ => .error { text := "is a directory" }

/-- Go `fs.ReadFile(os.DirFS("/"), path)` for the entry `d` met at `path`: when
`os.DirFS` accepts the name `path` it reads the file of that name under the root `/`,
taken to be the entry met; otherwise it returns its error without reading. -/
def dirFSReadFile (path : String) (d : FsNode) : Except GoError (List DecodeResult) :=
  if dirFSAccepts path then d.ReadFile else .error (errInvalidName path)

/-- The file system as `filepath.WalkDir` sees it from a root: the outcome of
`os.Lstat(root)`, with the tree found there. -/
structure FileSystem where
  lstat : String → Except GoError FsNode

/-- The decode loop of the function passed to `filepath.WalkDir`: `Decode` until it
returns an error (the end of the stream included), `applyObject` on every document
decoded, returning at the first one that fails. -/
def applyDocuments {σ : Type} (k : Client σ) : List DecodeResult → σ → Out σ
  | [], st => { err := none, state := st, trace := [] }
  | .fail _ :: _, st => { err := none, state := st, trace := [] }
  | .doc obj :: rest, st =>
    match (applyObject k st obj).err with
    | some err =>
      { err := some err, state := (applyObject k st obj).state,
        trace := (applyObject k st obj).trace }
    | none =>
      { err := (applyDocuments k rest (applyObject k st obj).state).err,
        state := (applyDocuments k rest (applyObject k st obj).state).state,
        trace := (applyObject k st obj).trace ++
          (applyDocuments k rest (applyObject k st obj).state).trace }

/-- The function `ApplyManifests` passes to `filepath.WalkDir`, called on the entry `d`
found at `path` with the error `err`. -/
def walkFn {σ : Type} (k : Client σ) (path : String) (d : FsNode) (err : error) (st : σ) :
    Out σ :=
  match err with
  | some e => { err := some e, state := st, trace := [] }
  | none =>
    if d.IsDir || filepathExt path != ".yaml" then { err := none, state := st, trace := [] }
    else
      match dirFSReadFile path d with
      | .error e => { err := some e, state := st, trace := [] }
      | .ok data => applyDocuments k data st

mutual
/-- The function `walkDir` of `path/filepath` with `walkFn` as its callback.  The
callback returns only `nil` or an error of the file system or of the cluster client,
never the sentinels `SkipDir` and `SkipAll`, so the branches on them are left out. -/
def walkDir {σ : Type} (k : Client σ) (path : String) : FsNode → σ → Out σ
  | .file name read, st => walkFn k path (.file name read) none st
  | .dir name readDir entries, st =>
    let first := walkFn k path (.dir name readDir entries) none st
    match first.err with
    | some err => { err := some err, state := first.state, trace := first.trace }
    | none =>
      match readDir with
      | some err => walkFn k path (.dir name readDir entries) (some err) first.state
      | none => walkEntries k path entries first.state
/-- The loop of `walkDir` over the entries of the directory at `path`. -/
def walkEntries {σ : Type} (k : Client σ) (path : String) : List FsNode → σ → Out σ
  | [], st => { err := none, state := st, trace := [] }
  | d1 :: rest, st =>
    let head := walkDir k (filepathJoin [path, d1.Name]) d1 st
    match head.err with
    | some err => { err := some err, state := head.state, trace := head.trace }
    | none =>
      let tail := walkEntries k path rest head.state
      { err := tail.err, state := tail.state, trace := head.trace ++ tail.trace }
end

/-- ApplyManifests applies Kubernetes manifests to the cluster: `filepath.WalkDir` over
`dir` with `walkFn`.  When `os.Lstat(dir)` fails the callback is called once, with
that error and no entry, and returns the error before it looks at the entry. -/
def ApplyManifests {σ : Type} (k : Client σ) (fs : FileSystem) (dir : String) (st : σ) :
    Out σ :=
  match fs.lstat dir with
  | .error e => { err := some e, state := st, trace := [.applyManifests dir] }
  | .ok d =>
    let walk := walkDir k dir d st
    { err := walk.err, state := walk.state, trace := .applyManifests dir :: walk.trace }

/-! ## An in-memory resource store -/

/-- Modelled from the spec: the declarative-resource store of section 6 (the cluster
API, which is not part of the repository), as the in-memory fake the spec asks for: the
objects held, each under its identity (type, namespace, name) and with its
concurrency token. -/
abbrev MemStore := List Unstructured

/-- Whether a stored object has the identity of `obj`. -/
def sameIdentity (obj stored : Unstructured) : Bool :=
  stored.APIVersion == obj.APIVersion && stored.Kind == obj.Kind &&
    stored.Namespace == obj.Namespace && stored.Name == obj.Name

/-- The stored object with the identity of `obj`, if any. -/
def MemStore.lookup (s : MemStore) (obj : Unstructured) : Option Unstructured :=
  s.find? (sameIdentity obj)

/-- The store with the object of the identity of `obj` replaced by `obj`. -/
def MemStore.replace (s : MemStore) (obj : Unstructured) : MemStore :=
  s.map (fun stored => if sameIdentity obj stored then obj else stored)

/-- Modelled from the spec: `get` of the in-memory store; a not-found error when no
object is stored under the key. -/
def MemStore.get (s : MemStore) (key : ObjectKey) (into : Unstructured) :
    Except GoError Unstructured :=
  match s.lookup { into with Namespace := key.Namespace, Name := key.Name } with
  | some stored => .ok stored
  | none => .error { text := "not found", notFound := true }

/-- Modelled from the spec: `create` of the in-memory store; it refuses an identity
already present, and stores a new object under its first token. -/
def MemStore.create (s : MemStore) (obj : Unstructured) : error × MemStore :=
  match s.lookup obj with
  | some _ => (some { text := "already exists" }, s)
  | none => (none, { obj with ResourceVersion := 1 } :: s)

/-- Modelled from the spec: `update` of the in-memory store, a full replace under
optimistic concurrency: it refuses an absent identity and a token other than the
stored one, and stores the object under the next token. -/
def MemStore.update (s : MemStore) (obj : Unstructured) : error × MemStore :=
  match s.lookup obj with
  | none => (some { text := "not found", notFound := true }, s)
  | some stored =>
    if obj.ResourceVersion = stored.ResourceVersion then
      (none, s.replace { obj with ResourceVersion := stored.ResourceVersion + 1 })
    else (some { text := "conflict" }, s)

/-- Modelled from the spec: the in-memory store as a cluster client. -/
def memClient : Client MemStore :=
  { get := MemStore.get, create := MemStore.create, update := MemStore.update }

/-! ## `internal/controller`: the reconciler -/

/-- What a reconcile cycle takes from outside the process. -/
structure Env (σ : Type) where
  /-- The cluster client on manifest objects (`r.Client`, handed to `K8sManager`). -/
  client : Client σ
  /-- The outcome of `r.Get(ctx, req.NamespacedName, &deployment)`. -/
  getDeployment : σ → NamespacedName → Except GoError GitOpsDeployment
  /-- The outcome of `r.Status().Update(ctx, &deployment)`. -/
  statusUpdate : σ → GitOpsDeployment → error × σ
  git : GitWorld
  fs : FileSystem
  time : TimeLib
  /-- The successive readings of `metav1.Now()` within the cycle. -/
  now : Nat → Time

/-- What a reconcile cycle leaves: the two results of `Reconcile`, the local variable
`deployment` at the return (absent when the fetch failed), the store, and the calls
issued. -/
structure ReconcileOut (σ : Type) where
  result : Result
  err : error
  deployment : Option GitOpsDeployment
  state : σ
  trace : List Event

/-- Updates the status of the GitOpsDeployment resource. -/
def updateStatus (now : Time) (deployment : GitOpsDeployment) (status : ConditionStatus)
    (reason message : String) : GitOpsDeployment :=
  let condition : Condition :=
    { type := "Ready", Status := status, Reason := reason, Message := message,
      LastTransitionTime := now }
  { deployment with Status := { deployment.Status with Conditions := [condition] } }

/-- Reconcile is part of the main kubernetes reconciliation loop. -/
def Reconcile {σ : Type} (env : Env σ) (st : σ) (req : NamespacedName) : ReconcileOut σ :=
  match env.getDeployment st req with
  | .error err =>
    { result := {}, err := IgnoreNotFound (some err), deployment := none, state := st,
      trace := [.getDeployment req] }
  | .ok deployment =>
    let repoManager :=
      NewRepoManager deployment.Spec.RepoURL deployment.Spec.Branch deployment.Name
    let sync := repoManager.CloneOrPull env.git
    match sync.err with
    | some err =>
      { result := {}, err := some err,
        deployment := some (updateStatus (env.now 0) deployment .ConditionFalse
          "CloneFailed" err.text),
        state := st, trace := .getDeployment req :: sync.trace }
    | none =>
      let manifestsPath := repoManager.GetManifestsPath deployment.Spec.Path
      let apply := ApplyManifests env.client env.fs manifestsPath st
      match apply.err with
      | some err =>
        { result := {}, err := some err,
          deployment := some (updateStatus (env.now 0) deployment .ConditionFalse
            "ApplyFailed" err.text),
          state := apply.state, trace := .getDeployment req :: (sync.trace ++ apply.trace) }
      | none =>
        let synced : GitOpsDeployment :=
          { deployment with
            Status := { deployment.Status with Synced := true, LastSyncTime := env.now 0 } }
        let reported := updateStatus (env.now 1) synced .ConditionTrue "Reconciled"
          "Successfully applied manifests"
        let write := env.statusUpdate apply.state reported
        let trace := .getDeployment req :: (sync.trace ++ apply.trace ++ [.statusUpdate reported])
        match write.1 with
        | some err =>
          { result := {}, err := some err, deployment := some reported, state := write.2,
            trace := trace }
        | none =>
          match ParseDuration env.time reported.Spec.Interval with
          | .error err =>
            { result := {}, err := some err, deployment := some reported, state := write.2,
              trace := trace }
          | .ok interval =>
            { result := { RequeueAfter := interval }, err := none,
              deployment := some reported, state := write.2, trace := trace }

/-! ## Reading a trace -/

/-- The records handed to `r.Status().Update` in a trace, in order. -/
def statusWrites : List Event → List GitOpsDeployment
  | [] => []
  | .statusUpdate d :: rest => d :: statusWrites rest
  | _ :: rest => statusWrites rest

/-- The documents on which `applyObject` was called in a trace, in order. -/
def applyCalls : List Event → List Unstructured
  | [] => []
  | .applyObject obj :: rest => obj :: applyCalls rest
  | _ :: rest => applyCalls rest

/-- The directories on which `ApplyManifests` was called in a trace, in order. -/
def applyManifestsCalls : List Event → List String
  | [] => []
  | .applyManifests dir :: rest => dir :: applyManifestsCalls rest
  | _ :: rest => applyManifestsCalls rest

/-- The `create` and `update` calls on the cluster client in a trace, in order. -/
def storeWrites : List Event → List Event
  | [] => []
  | .create obj :: rest => .create obj :: storeWrites rest
  | .update obj :: rest => .update obj :: storeWrites rest
  | _ :: rest => storeWrites rest

/-! ## The calls of one reconcile cycle -/

/-- The `CloneOrPull` call of the reconcile cycle on `deployment`. -/
def cycleSync {σ : Type} (env : Env σ) (deployment : GitOpsDeployment) : GitOut :=
  (NewRepoManager deployment.Spec.RepoURL deployment.Spec.Branch deployment.Name).CloneOrPull
    env.git

/-- The `ApplyManifests` call of the reconcile cycle on `deployment`. -/
def cycleApply {σ : Type} (env : Env σ) (st : σ) (deployment : GitOpsDeployment) : Out σ :=
  ApplyManifests env.client env.fs
    ((NewRepoManager deployment.Spec.RepoURL deployment.Spec.Branch
      deployment.Name).GetManifestsPath deployment.Spec.Path) st

/-- The record the success path of `Reconcile` hands to `r.Status().Update`. -/
def reportedSuccess {σ : Type} (env : Env σ) (deployment : GitOpsDeployment) :
    GitOpsDeployment :=
  { deployment with
    Status :=
      { Synced := true, LastSyncTime := env.now 0,
        Conditions :=
          [{ type := "Ready", Status := .ConditionTrue, Reason := "Reconciled",
             Message := "Successfully applied manifests", LastTransitionTime := env.now 1 }] } }

/-! ## The documents of a tree, and applying them one after the other -/

/-- The documents among the results of the decoder on a file. -/
def documentsOf : List DecodeResult → List Unstructured
  | [] => []
  | .doc obj :: rest => obj :: documentsOf rest
  | .fail _ :: rest => documentsOf rest

/-- Whether every result of the decoder on a file is a document. -/
def allDocuments : List DecodeResult → Bool
  | [] => true
  | .doc _ :: rest => allDocuments rest
  | .fail _ :: _ => false

mutual
/-- The documents held by the manifest files of the tree at `path` (the entries that
are not directories and whose path has the extension `.yaml`): file by file in the
order of the walk, and within a file in the order of the documents. -/
def manifestDocuments (path : String) : FsNode → List Unstructured
  | .file _ read =>
    if filepathExt path = ".yaml" then
      match read with
      | .ok data => documentsOf data
      | .error _ => []
    else []
  | .dir _ _ entries => entriesDocuments path entries
/-- The documents held by the manifest files under the entries of the directory at
`path`. -/
def entriesDocuments (path : String) : List FsNode → List Unstructured
  | [] => []
  | d :: rest => manifestDocuments (filepathJoin [path, d.Name]) d ++ entriesDocuments path rest
end

mutual
/-- Whether the tree at `path` can be read in full: every directory is listed, every
manifest file has a name that `os.DirFS` accepts and is read, and every document of a
manifest file is well formed. -/
def wellFormedTree (path : String) : FsNode → Bool
  | .file _ read =>
    if filepathExt path = ".yaml" then
      dirFSAccepts path &&
        match read with
        | .ok data => allDocuments data
        | .error _ => false
    else true
  | .dir _ readDir entries => readDir.isNone && wellFormedEntries path entries
/-- Whether the trees under the entries of the directory at `path` can be read in full. -/
def wellFormedEntries (path : String) : List FsNode → Bool
  | [] => true
  | d :: rest => wellFormedTree (filepathJoin [path, d.Name]) d && wellFormedEntries path rest
end

/-- The error of `applyObject` on the document at position `i` of `docs`, called in the
store that the calls on the documents before it leave, starting from `st`. -/
def nthApplyErr {σ : Type} (k : Client σ) (st : σ) : List Unstructured → Nat → error
  | [], _ => none
  | obj :: _, 0 => (applyObject k st obj).err
  | obj :: rest, i + 1 => nthApplyErr k (applyObject k st obj).state rest i

/-- A stream of decoder results cut just before its first failure. -/
def cutAtFailure : List DecodeResult → List DecodeResult
  | [] => []
  | .fail _ :: _ => []
  | .doc obj :: rest => .doc obj :: cutAtFailure rest

mutual
/-- The tree in which every file ends just before its first undecodable document. -/
def FsNode.cut : FsNode → FsNode
  | .file name (.ok data) => .file name (.ok (cutAtFailure data))
  | .file name (.error e) => .file name (.error e)
  | .dir name readDir entries => .dir name readDir (cutEntries entries)
/-- The entries of a directory, each cut as `FsNode.cut` does. -/
def cutEntries : List FsNode → List FsNode
  | [] => []
  | d :: rest => d.cut :: cutEntries rest
end

/-- The file system in which every file ends just before its first undecodable
document. -/
def FileSystem.cut (fs : FileSystem) : FileSystem :=
  { lstat := fun path =>
      match fs.lstat path with
      | .ok d => .ok d.cut
      | .error e => .error e }

/-! ## Sample inputs -/

/-- A `TimeLib` whose fraction is computed exactly and whose `quote` only brackets
its argument. -/
def sampleTime : TimeLib :=
  { fracNanos := fun f unit k => f * unit / 10 ^ k,
    quote := fun s => "(" ++ s ++ ")" }

/-- The deployment of the end-to-end example, with the given interval. -/
def sampleDeployment (interval : String) : GitOpsDeployment :=
  { Name := "demo", Namespace := "default",
    Spec := { RepoURL := "https://example.com/repo.git", Branch := "main",
              Path := "manifests", Interval := interval },
    Status := { Synced := false, LastSyncTime := 0,
                Conditions := [{ type := "Stale", Status := .ConditionUnknown, Reason := "Old",
                                 Message := "left by an earlier cycle",
                                 LastTransitionTime := 1 }] } }

/-- A manifest document. -/
def sampleObject (name : String) : Unstructured :=
  { APIVersion := "v1", Kind := "ConfigMap", Namespace := "staging", Name := name,
    ResourceVersion := 0, Payload := "data" }

/-- A source tree without a manifest file. -/
def sampleTree : FsNode :=
  .dir "manifests" none [.file "README.md" (.ok [])]

/-- The source tree of the end-to-end example: `manifests/a.yaml` holds one document. -/
def manifestTree : FsNode :=
  .dir "manifests" none [.file "a.yaml" (.ok [.doc (sampleObject "a")])]

/-- A source tree with two manifest files, two files that are not manifests, and a
directory whose own name ends in `.yaml`. -/
def mixedTree : FsNode :=
  .dir "manifests" none
    [.file "README.md" (.error { text := "permission denied" }),
     .file "a.yaml" (.ok [.doc (sampleObject "a1"), .doc (sampleObject "a2")]),
     .file "b.yml" (.ok [.doc (sampleObject "b")]),
     .file "c.YAML" (.ok [.doc (sampleObject "c")]),
     .dir "d.yaml" none [.file "e.yaml" (.ok [.doc (sampleObject "e")])]]

/-- A file system holding `tree` at `root` and nothing else. -/
def sampleFs (root : String) (tree : FsNode) : FileSystem :=
  { lstat := fun path =>
      if path = root then .ok tree
      else .error { text := "no such file or directory", notExist := true } }

/-- A world without a local mirror in which the clone succeeds. -/
def freshGit : GitWorld :=
  { stat := fun _ => some { text := "no such file or directory", notExist := true },
    plainClone := fun _ _ _ => none,
    plainOpen := fun _ => some { text := "repository does not exist" },
    worktree := fun _ => none,
    pull := fun _ _ => none }

/-- A world whose local mirror exists and is current with the remote: the pull finds
no new commit. -/
def currentGit : GitWorld :=
  { stat := fun _ => none,
    plainClone := fun _ _ _ => some { text := "repository already exists" },
    plainOpen := fun _ => none,
    worktree := fun _ => none,
    pull := fun _ _ => some NoErrAlreadyUpToDate }

/-- A world in which the clone fails. -/
def brokenGit : GitWorld :=
  { freshGit with plainClone := fun _ _ _ => some { text := "authentication required" } }

/-- An environment over the in-memory store: the deployment record is found, the
status write answers `writeErr`. -/
def sampleEnv (git : GitWorld) (tree : FsNode) (interval : String) (writeErr : error) :
    Env MemStore :=
  { client := memClient,
    getDeployment := fun _ _ => .ok (sampleDeployment interval),
    statusUpdate := fun st _ => (writeErr, st),
    git := git,
    fs := sampleFs "/tmp/demo/manifests" tree,
    time := sampleTime,
    now := fun n => 100 + n }

/-- A status-write failure. -/
def writeFailure : GoError := { text := "the object has been modified" }

/-- The request of the sample cycles. -/
def sampleReq : NamespacedName := { Namespace := "default", Name := "demo" }

/-! # Theorems -/

/-! ## `time.ParseDuration` terminates -/

theorem leadingInt_length (s : List Char) :
    ∀ (x v : Nat) (s1 : List Char), leadingInt x s = some (v, s1) → s1.length ≤ s.length := by
  induction s with
  | nil => intro x v s1 h; simp [leadingInt] at h; simp [h.2.symm]
  | cons c s ih =>
    intro x v s1 h
    simp only [leadingInt] at h
    split at h
    · simp at h; simp [h.2.symm]
    · split at h
      · simp at h
      · split at h
        · simp at h
        · have := ih _ v s1 h
          simp; omega

theorem leadingFraction_length (s : List Char) :
    ∀ (x k : Nat) (o : Bool), (leadingFraction x k o s).2.2.length ≤ s.length := by
  induction s with
  | nil => intro x k o; simp [leadingFraction]
  | cons c s ih =>
    intro x k o
    simp only [leadingFraction]
    split
    · simp
    · split
      · have := ih x k true; simp; omega
      · split
        · have := ih x k true; simp; omega
        · split
          · have := ih x k true; simp; omega
          · exact Nat.le_succ_of_le (ih _ _ _)

theorem dropWhile_length_lt (p : Char → Bool) (s : List Char) (h : s.takeWhile p ≠ []) :
    (s.dropWhile p).length < s.length := by
  cases s with
  | nil => simp at h
  | cons c t =>
    by_cases hc : p c = true
    · simp only [List.dropWhile_cons, hc, if_true, List.length_cons]
      have := (List.dropWhile_sublist p (l := t)).length_le
      omega
    · simp [List.takeWhile_cons, hc] at h

/-- The loop of `time.ParseDuration` never uses up a fuel above the length of its
input: it always returns. -/
theorem parseLoop_returns (lib : TimeLib) (orig : String) :
    ∀ (fuel : Nat) (s : List Char) (d : Nat), s.length < fuel →
      parseLoop lib orig fuel s d ≠ none := by
  intro fuel
  induction fuel with
  | zero => intro s d h; simp at h
  | succ fuel ih =>
    intro s d h
    cases s with
    | nil => simp [parseLoop]
    | cons c t =>
      simp only [parseLoop]
      split
      · simp
      · split
        · simp
        · rename_i v s1 hint
          have hs1 := leadingInt_length _ _ _ _ hint
          have hs3 : (if s1.head? = some '.' then
              ((leadingFraction 0 0 false s1.tail).1, (leadingFraction 0 0 false s1.tail).2.1,
                (leadingFraction 0 0 false s1.tail).2.2,
                s1.tail.length != (leadingFraction 0 0 false s1.tail).2.2.length)
              else (0, 0, s1, false)).2.2.1.length ≤ s1.length := by
            split
            · have h1 := leadingFraction_length s1.tail 0 0 false
              have h2 : s1.tail.length ≤ s1.length := by simp
              exact Nat.le_trans h1 h2
            · exact Nat.le_refl _
          generalize (if s1.head? = some '.' then
              ((leadingFraction 0 0 false s1.tail).1, (leadingFraction 0 0 false s1.tail).2.1,
                (leadingFraction 0 0 false s1.tail).2.2,
                s1.tail.length != (leadingFraction 0 0 false s1.tail).2.2.length)
              else (0, 0, s1, false)) = frac at hs3 ⊢
          have hlen : (c :: t).length ≤ fuel := Nat.le_of_lt_succ h
          split
          · simp
          · split
            · simp
            · rename_i hu
              have hdrop := dropWhile_length_lt (fun c => !endsUnit c) frac.2.2.1 hu
              have hfuel : (List.dropWhile (fun c => !endsUnit c) frac.2.2.1).length < fuel := by
                omega
              split
              · simp
              · split
                · simp
                · split
                  · split
                    · simp
                    · split
                      · simp
                      · exact ih _ _ hfuel
                  · split
                    · simp
                    · exact ih _ _ hfuel

/-- The model of `time.ParseDuration` never takes its out-of-fuel branch: its result is
that of the loop whenever the loop is entered. -/
theorem ParseDuration_loop_returns (lib : TimeLib) (orig : String) :
    parseLoop lib orig ((consumeSign orig.data).2.length + 1) (consumeSign orig.data).2 0 ≠
      none :=
  parseLoop_returns lib orig _ _ 0 (Nat.lt_succ_self _)

/-! ## Traces -/

theorem statusWrites_append (a b : List Event) :
    statusWrites (a ++ b) = statusWrites a ++ statusWrites b := by
  induction a with
  | nil => rfl
  | cons e a ih => cases e <;> simp [statusWrites, ih]

theorem applyCalls_append (a b : List Event) :
    applyCalls (a ++ b) = applyCalls a ++ applyCalls b := by
  induction a with
  | nil => rfl
  | cons e a ih => cases e <;> simp [applyCalls, ih]

theorem applyManifestsCalls_append (a b : List Event) :
    applyManifestsCalls (a ++ b) = applyManifestsCalls a ++ applyManifestsCalls b := by
  induction a with
  | nil => rfl
  | cons e a ih => cases e <;> simp [applyManifestsCalls, ih]

theorem storeWrites_append (a b : List Event) :
    storeWrites (a ++ b) = storeWrites a ++ storeWrites b := by
  induction a with
  | nil => rfl
  | cons e a ih => cases e <;> simp [storeWrites, ih]

/-- The calls of `pullRepo` go to go-git only. -/
theorem pullRepo_trace (rm : RepoManager) (w : GitWorld) :
    statusWrites (rm.pullRepo w).trace = [] ∧ applyManifestsCalls (rm.pullRepo w).trace = [] ∧
      applyCalls (rm.pullRepo w).trace = [] ∧ storeWrites (rm.pullRepo w).trace = [] := by
  unfold RepoManager.pullRepo
  cases w.plainOpen rm.RepoDir <;> cases w.worktree rm.RepoDir <;>
    simp [statusWrites, applyManifestsCalls, applyCalls, storeWrites]

/-- The calls of `CloneOrPull` go to the file system and go-git only. -/
theorem CloneOrPull_trace (rm : RepoManager) (w : GitWorld) :
    statusWrites (rm.CloneOrPull w).trace = [] ∧
      applyManifestsCalls (rm.CloneOrPull w).trace = [] ∧
      applyCalls (rm.CloneOrPull w).trace = [] ∧ storeWrites (rm.CloneOrPull w).trace = [] := by
  unfold RepoManager.CloneOrPull
  split
  · simp [RepoManager.cloneRepo, statusWrites, applyManifestsCalls, applyCalls, storeWrites]
  · simp [statusWrites, applyManifestsCalls, applyCalls, storeWrites, pullRepo_trace]

/-- One `applyObject` is one `applyObject` event and no status write. -/
theorem applyObject_trace {σ : Type} (k : Client σ) (st : σ) (obj : Unstructured) :
    statusWrites (applyObject k st obj).trace = [] ∧
      applyCalls (applyObject k st obj).trace = [obj] := by
  simp only [applyObject]
  split <;> simp [statusWrites, applyCalls]

theorem applyDocuments_statusWrites {σ : Type} (k : Client σ) (data : List DecodeResult)
    (st : σ) : statusWrites (applyDocuments k data st).trace = [] := by
  induction data generalizing st with
  | nil => simp [applyDocuments, statusWrites]
  | cons r rest ih =>
    cases r with
    | fail e => simp [applyDocuments, statusWrites]
    | doc obj =>
      simp only [applyDocuments]
      split
      · simp [(applyObject_trace k st obj).1]
      · simp [statusWrites_append, (applyObject_trace k st obj).1, ih]

theorem walkFn_statusWrites {σ : Type} (k : Client σ) (path : String) (d : FsNode)
    (err : error) (st : σ) : statusWrites (walkFn k path d err st).trace = [] := by
  unfold walkFn
  split
  · simp [statusWrites]
  · split
    · simp [statusWrites]
    · split
      · simp [statusWrites]
      · exact applyDocuments_statusWrites k _ st

mutual
theorem walkDir_statusWrites {σ : Type} (k : Client σ) (path : String) :
    ∀ (d : FsNode) (st : σ), statusWrites (walkDir k path d st).trace = []
  | .file name read, st => by
    simp only [walkDir]
    exact walkFn_statusWrites k path _ none st
  | .dir name readDir entries, st => by
    simp only [walkDir]
    split
    · exact walkFn_statusWrites k path _ none st
    · split
      · exact walkFn_statusWrites k path _ _ _
      · exact walkEntries_statusWrites k path entries _
theorem walkEntries_statusWrites {σ : Type} (k : Client σ) (path : String) :
    ∀ (entries : List FsNode) (st : σ), statusWrites (walkEntries k path entries st).trace = []
  | [], st => by simp [walkEntries, statusWrites]
  | d1 :: rest, st => by
    simp only [walkEntries]
    split
    · exact walkDir_statusWrites k _ d1 st
    · simp [statusWrites_append, walkDir_statusWrites k _ d1 st,
        walkEntries_statusWrites k path rest _]
end

/-- The calls of `ApplyManifests` hold no status write. -/
theorem ApplyManifests_statusWrites {σ : Type} (k : Client σ) (fs : FileSystem)
    (dir : String) (st : σ) : statusWrites (ApplyManifests k fs dir st).trace = [] := by
  unfold ApplyManifests
  split
  · simp [statusWrites]
  · simp [statusWrites, walkDir_statusWrites]

/-! ## The reconciler -/

/-- Claim C8.  Whatever the status held before, `updateStatus` leaves exactly one
condition, of type "Ready", with the status, reason and message given; a second
`updateStatus` leaves exactly one condition again, that of the second call; and nothing
of the record but its conditions changes. -/
theorem updateStatus_single_ready (now now2 : Time) (deployment : GitOpsDeployment)
    (status status2 : ConditionStatus) (reason message reason2 message2 : String) :
    (updateStatus now deployment status reason message).Status.Conditions =
        [{ type := "Ready", Status := status, Reason := reason, Message := message,
           LastTransitionTime := now }] ∧
      (updateStatus now deployment status reason message).Status.Conditions.length = 1 ∧
      (updateStatus now2 (updateStatus now deployment status reason message) status2 reason2
          message2).Status.Conditions =
        [{ type := "Ready", Status := status2, Reason := reason2, Message := message2,
           LastTransitionTime := now2 }] ∧
      (updateStatus now deployment status reason message).Status.Synced =
        deployment.Status.Synced ∧
      (updateStatus now deployment status reason message).Status.LastSyncTime =
        deployment.Status.LastSyncTime ∧
      (updateStatus now deployment status reason message).Spec = deployment.Spec ∧
      (updateStatus now deployment status reason message).Name = deployment.Name ∧
      (updateStatus now deployment status reason message).Namespace = deployment.Namespace := by
  simp [updateStatus]

/-- Claim C1.  When the record is found and both `CloneOrPull` and `ApplyManifests`
succeed, `Reconcile` issues exactly one status write; the record it hands over has
`synced = true` and, whatever the status was, the one condition Ready / True /
"Reconciled" / "Successfully applied manifests"; and if that write fails, `Reconcile`
returns the error of the write and the empty result. -/
theorem Reconcile_success_reports_ready {σ : Type} (env : Env σ) (st : σ)
    (req : NamespacedName) (deployment : GitOpsDeployment)
    (hget : env.getDeployment st req = .ok deployment)
    (hsync : (cycleSync env deployment).err = none)
    (happly : (cycleApply env st deployment).err = none) :
    statusWrites (Reconcile env st req).trace = [reportedSuccess env deployment] ∧
      (reportedSuccess env deployment).Status.Synced = true ∧
      (reportedSuccess env deployment).Status.Conditions =
        [{ type := "Ready", Status := .ConditionTrue, Reason := "Reconciled",
           Message := "Successfully applied manifests", LastTransitionTime := env.now 1 }] ∧
      ∀ e, (env.statusUpdate (cycleApply env st deployment).state
              (reportedSuccess env deployment)).1 = some e →
        (Reconcile env st req).err = some e ∧
          (Reconcile env st req).result = { Requeue := false, RequeueAfter := 0 } := by
  unfold cycleSync at hsync
  unfold cycleApply at happly
  refine ⟨?_, rfl, rfl, ?_⟩
  · simp only [Reconcile, hget, hsync, happly]
    split <;> [skip; split] <;>
      simp [statusWrites, statusWrites_append, ApplyManifests_statusWrites,
        (CloneOrPull_trace _ _).1, reportedSuccess, updateStatus]
  · intro e he
    unfold cycleApply reportedSuccess at he
    simp [updateStatus, Reconcile, hget, hsync, happly, he]

/-- Witness of claim C1: the end-to-end example with a failing status write. -/
theorem Reconcile_success_reports_ready_witness :
    (sampleEnv freshGit sampleTree "1m" (some writeFailure)).getDeployment [] sampleReq =
        .ok (sampleDeployment "1m") ∧
      (cycleSync (sampleEnv freshGit sampleTree "1m" (some writeFailure))
        (sampleDeployment "1m")).err = none ∧
      (cycleApply (sampleEnv freshGit sampleTree "1m" (some writeFailure)) []
        (sampleDeployment "1m")).err = none ∧
      (Reconcile (sampleEnv freshGit sampleTree "1m" (some writeFailure)) [] sampleReq).err =
        some writeFailure ∧
      (Reconcile (sampleEnv freshGit sampleTree "1m" (some writeFailure)) []
        sampleReq).result = { Requeue := false, RequeueAfter := 0 } :=
  ⟨rfl, rfl, rfl,
    (Reconcile_success_reports_ready (sampleEnv freshGit sampleTree "1m" (some writeFailure)) []
      sampleReq (sampleDeployment "1m") rfl rfl rfl).2.2.2 writeFailure rfl⟩

/-- Claim C2.  When the record is found: if `CloneOrPull` fails with `e`, `Reconcile`
returns `e` with the empty result, the conditions of the deployment are exactly
Ready / False / "CloneFailed" / the text of `e`, and no `ApplyManifests`,
`applyObject`, create or update call is made; if `CloneOrPull` succeeds and
`ApplyManifests` fails with `e`, `Reconcile` returns `e` with the empty result and the
conditions are exactly Ready / False / "ApplyFailed" / the text of `e`; in both cases
the synced flag is the one the record had. -/
theorem Reconcile_failure_conditions {σ : Type} (env : Env σ) (st : σ)
    (req : NamespacedName) (deployment : GitOpsDeployment)
    (hget : env.getDeployment st req = .ok deployment) :
    (∀ e, (cycleSync env deployment).err = some e →
        (Reconcile env st req).err = some e ∧
        (Reconcile env st req).result = { Requeue := false, RequeueAfter := 0 } ∧
        (∃ d, (Reconcile env st req).deployment = some d ∧
          d.Status.Conditions =
            [{ type := "Ready", Status := .ConditionFalse, Reason := "CloneFailed",
               Message := e.text, LastTransitionTime := env.now 0 }] ∧
          d.Status.Synced = deployment.Status.Synced) ∧
        applyManifestsCalls (Reconcile env st req).trace = [] ∧
        applyCalls (Reconcile env st req).trace = [] ∧
        storeWrites (Reconcile env st req).trace = []) ∧
      (∀ e, (cycleSync env deployment).err = none →
        (cycleApply env st deployment).err = some e →
        (Reconcile env st req).err = some e ∧
        (Reconcile env st req).result = { Requeue := false, RequeueAfter := 0 } ∧
        (∃ d, (Reconcile env st req).deployment = some d ∧
          d.Status.Conditions =
            [{ type := "Ready", Status := .ConditionFalse, Reason := "ApplyFailed",
               Message := e.text, LastTransitionTime := env.now 0 }] ∧
          d.Status.Synced = deployment.Status.Synced)) := by
  constructor
  · intro e hsync
    unfold cycleSync at hsync
    simp [Reconcile, hget, hsync, updateStatus, applyManifestsCalls, applyCalls, storeWrites,
      CloneOrPull_trace]
  · intro e hsync happly
    unfold cycleSync at hsync
    unfold cycleApply at happly
    simp [Reconcile, hget, hsync, happly, updateStatus]

/-- Witness of claim C2: a cycle whose clone fails. -/
theorem Reconcile_failure_conditions_witness :
    (sampleEnv brokenGit sampleTree "1m" none).getDeployment [] sampleReq =
        .ok (sampleDeployment "1m") ∧
      (cycleSync (sampleEnv brokenGit sampleTree "1m" none) (sampleDeployment "1m")).err =
        some { text := "authentication required" } ∧
      (Reconcile (sampleEnv brokenGit sampleTree "1m" none) [] sampleReq).err =
        some { text := "authentication required" } ∧
      applyManifestsCalls (Reconcile (sampleEnv brokenGit sampleTree "1m" none) []
        sampleReq).trace = [] :=
  ⟨rfl, rfl,
    ((Reconcile_failure_conditions (sampleEnv brokenGit sampleTree "1m" none) [] sampleReq
      (sampleDeployment "1m") rfl).1 { text := "authentication required" } rfl).1,
    ((Reconcile_failure_conditions (sampleEnv brokenGit sampleTree "1m" none) [] sampleReq
      (sampleDeployment "1m") rfl).1 { text := "authentication required" } rfl).2.2.2.1⟩

/-- Claim C4.  On a cycle that is otherwise successful (record found; sync, apply and
status write succeed): if `spec.interval` parses as the duration `d`, `Reconcile`
returns no error and the result asking for a requeue after exactly `d`; if it does not
parse, `Reconcile` returns the parse error and the empty result (`RequeueAfter = 0`,
`Requeue = false`).  "10s" parses as 10 seconds, "1m" as 60 seconds, and "abc" does
not parse. -/
theorem Reconcile_schedules_by_interval {σ : Type} (env : Env σ) (st : σ)
    (req : NamespacedName) (deployment : GitOpsDeployment)
    (hget : env.getDeployment st req = .ok deployment)
    (hsync : (cycleSync env deployment).err = none)
    (happly : (cycleApply env st deployment).err = none)
    (hwrite : (env.statusUpdate (cycleApply env st deployment).state
      (reportedSuccess env deployment)).1 = none) :
    (∀ d, ParseDuration env.time deployment.Spec.Interval = .ok d →
        (Reconcile env st req).err = none ∧
        (Reconcile env st req).result = { Requeue := false, RequeueAfter := d }) ∧
      (∀ e, ParseDuration env.time deployment.Spec.Interval = .error e →
        (Reconcile env st req).err = some e ∧
        (Reconcile env st req).result = { Requeue := false, RequeueAfter := 0 }) ∧
      ParseDuration env.time "10s" = .ok ((10 * Second : Nat) : Int) ∧
      ParseDuration env.time "1m" = .ok ((60 * Second : Nat) : Int) ∧
      ParseDuration env.time "abc" = .error (errInvalidDuration env.time "abc") := by
  unfold cycleSync at hsync
  unfold cycleApply at happly
  unfold cycleApply reportedSuccess at hwrite
  refine ⟨?_, ?_, rfl, rfl, rfl⟩
  · intro d hd
    simp [updateStatus, Reconcile, hget, hsync, happly, hwrite, hd]
  · intro e he
    simp [updateStatus, Reconcile, hget, hsync, happly, hwrite, he]

/-- Witness of claim C4: the end-to-end example with the interval "10s". -/
theorem Reconcile_schedules_by_interval_witness :
    (sampleEnv freshGit sampleTree "10s" none).getDeployment [] sampleReq =
        .ok (sampleDeployment "10s") ∧
      (cycleSync (sampleEnv freshGit sampleTree "10s" none) (sampleDeployment "10s")).err =
        none ∧
      (cycleApply (sampleEnv freshGit sampleTree "10s" none) [] (sampleDeployment "10s")).err =
        none ∧
      (Reconcile (sampleEnv freshGit sampleTree "10s" none) [] sampleReq).err = none ∧
      (Reconcile (sampleEnv freshGit sampleTree "10s" none) [] sampleReq).result =
        { Requeue := false, RequeueAfter := 10000000000 } :=
  ⟨rfl, rfl, rfl,
    (Reconcile_schedules_by_interval (sampleEnv freshGit sampleTree "10s" none) [] sampleReq
      (sampleDeployment "10s") rfl rfl rfl rfl).1 10000000000 rfl⟩

/-- Claim C3 does not hold as stated: on the end-to-end example with the interval
"abc" the cycle fails with the parse error, and the one status write it issued carries
the condition of status True; no write carries a condition of status False. -/
theorem Reconcile_unparsable_interval_writes_success :
    (Reconcile (sampleEnv freshGit sampleTree "abc" none) [] sampleReq).err =
        some (errInvalidDuration sampleTime "abc") ∧
      (statusWrites (Reconcile (sampleEnv freshGit sampleTree "abc" none) []
          sampleReq).trace).map (fun d => d.Status.Conditions.map (fun c => c.Status)) =
        [[ConditionStatus.ConditionTrue]] := by
  decide

/-- Claim C3, amended.  Every cycle that fails after the record is found returns a
non-nil error.  On a sync failure and on an apply failure `updateStatus` has replaced
the conditions of the deployment by the one condition Ready / False describing the
failure ("CloneFailed" or "ApplyFailed", with the text of the error).  On a status-write
failure and on an unparsable interval no failure condition is produced: the one status
write of the cycle carries the condition Ready / True / "Reconciled". -/
theorem Reconcile_failure_reporting {σ : Type} (env : Env σ) (st : σ)
    (req : NamespacedName) (deployment : GitOpsDeployment)
    (hget : env.getDeployment st req = .ok deployment) :
    (∀ e, (cycleSync env deployment).err = some e →
        (Reconcile env st req).err = some e ∧
        ∃ d, (Reconcile env st req).deployment = some d ∧
          d.Status.Conditions =
            [{ type := "Ready", Status := .ConditionFalse, Reason := "CloneFailed",
               Message := e.text, LastTransitionTime := env.now 0 }]) ∧
      (∀ e, (cycleSync env deployment).err = none →
        (cycleApply env st deployment).err = some e →
        (Reconcile env st req).err = some e ∧
        ∃ d, (Reconcile env st req).deployment = some d ∧
          d.Status.Conditions =
            [{ type := "Ready", Status := .ConditionFalse, Reason := "ApplyFailed",
               Message := e.text, LastTransitionTime := env.now 0 }]) ∧
      (∀ e, (cycleSync env deployment).err = none →
        (cycleApply env st deployment).err = none →
        ((env.statusUpdate (cycleApply env st deployment).state
            (reportedSuccess env deployment)).1 = some e ∨
          ((env.statusUpdate (cycleApply env st deployment).state
            (reportedSuccess env deployment)).1 = none ∧
           ParseDuration env.time deployment.Spec.Interval = .error e)) →
        (Reconcile env st req).err = some e ∧
        (statusWrites (Reconcile env st req).trace).map (fun d => d.Status.Conditions) =
          [[{ type := "Ready", Status := .ConditionTrue, Reason := "Reconciled",
              Message := "Successfully applied manifests",
              LastTransitionTime := env.now 1 }]]) := by
  refine ⟨?_, ?_, ?_⟩
  · intro e hsync
    unfold cycleSync at hsync
    simp [Reconcile, hget, hsync, updateStatus]
  · intro e hsync happly
    unfold cycleSync at hsync
    unfold cycleApply at happly
    simp [Reconcile, hget, hsync, happly, updateStatus]
  · intro e hsync happly h
    unfold cycleSync at hsync
    unfold cycleApply at happly
    unfold cycleApply reportedSuccess at h
    rcases h with h | ⟨h, hp⟩
    · simp [Reconcile, hget, hsync, happly, h, updateStatus, statusWrites,
        statusWrites_append, ApplyManifests_statusWrites, (CloneOrPull_trace _ _).1]
    · simp [Reconcile, hget, hsync, happly, h, hp, updateStatus, statusWrites,
        statusWrites_append, ApplyManifests_statusWrites, (CloneOrPull_trace _ _).1]

/-- Witness of the amended claim C3: a cycle whose status write fails. -/
theorem Reconcile_failure_reporting_witness :
    (sampleEnv freshGit sampleTree "1m" (some writeFailure)).getDeployment [] sampleReq =
        .ok (sampleDeployment "1m") ∧
      (Reconcile (sampleEnv freshGit sampleTree "1m" (some writeFailure)) [] sampleReq).err =
        some writeFailure ∧
      (statusWrites (Reconcile (sampleEnv freshGit sampleTree "1m" (some writeFailure)) []
          sampleReq).trace).map (fun d => d.Status.Conditions) =
        [[{ type := "Ready", Status := .ConditionTrue, Reason := "Reconciled",
            Message := "Successfully applied manifests", LastTransitionTime := 101 }]] :=
  ⟨rfl,
    (Reconcile_failure_reporting (sampleEnv freshGit sampleTree "1m" (some writeFailure)) []
      sampleReq (sampleDeployment "1m") rfl).2.2 writeFailure rfl rfl (Or.inl rfl)⟩

/-- Claim C10 fails on the code.  With a local mirror that exists and is current, the
pull returns `NoErrAlreadyUpToDate`; `CloneOrPull` returns that value as its error, and
`Reconcile` returns it too, records "CloneFailed" and makes no `ApplyManifests` call. -/
theorem CloneOrPull_already_up_to_date_is_error :
    (currentGit.pull "/tmp/demo" "origin") = some NoErrAlreadyUpToDate ∧
      (cycleSync (sampleEnv currentGit sampleTree "1m" none) (sampleDeployment "1m")).err =
        some NoErrAlreadyUpToDate ∧
      (cycleSync (sampleEnv currentGit sampleTree "1m" none) (sampleDeployment "1m")).trace =
        [.stat "/tmp/demo", .plainOpen "/tmp/demo", .worktree "/tmp/demo",
         .pull "/tmp/demo" "origin"] ∧
      (Reconcile (sampleEnv currentGit sampleTree "1m" none) [] sampleReq).err =
        some NoErrAlreadyUpToDate ∧
      (Reconcile (sampleEnv currentGit sampleTree "1m" none) [] sampleReq).result =
        { Requeue := false, RequeueAfter := 0 } ∧
      ((Reconcile (sampleEnv currentGit sampleTree "1m" none) [] sampleReq).deployment.map
          (fun d => d.Status.Conditions)) =
        some [{ type := "Ready", Status := .ConditionFalse, Reason := "CloneFailed",
                Message := "already up-to-date", LastTransitionTime := 100 }] ∧
      applyManifestsCalls (Reconcile (sampleEnv currentGit sampleTree "1m" none) []
        sampleReq).trace = [] := by
  decide

/-! ## `RepoManager` -/

/-- Copying a real path element that holds no separator appends it to the buffer. -/
theorem cleanLoop_copy (rooted : Bool) (t out : List Char) (dd : Nat) (hs : '/' ∉ t) :
    cleanLoop rooted .copy t out dd = t.reverse ++ out := by
  induction t generalizing out with
  | nil => simp [cleanLoop]
  | cons c t ih =>
    have hc : c ≠ '/' := fun h => hs (by simp [h])
    have ht : '/' ∉ t := fun h => hs (by simp [h])
    simp [cleanLoop, hc, ih _ ht]

/-- At the start of an element, a name that is a single path element other than `.` and
`..` is copied after a separator. -/
theorem cleanLoop_start_element (rooted : Bool) (n out : List Char) (dd : Nat)
    (hne : n ≠ []) (hs : '/' ∉ n) (hd : n ≠ ['.']) (hdd : n ≠ ['.', '.']) :
    cleanLoop rooted .start n out dd = n.reverse ++ cleanSep rooted out := by
  cases n with
  | nil => exact absurd rfl hne
  | cons c t =>
    have hc : c ≠ '/' := fun h => hs (by simp [h])
    have ht : '/' ∉ t := fun h => hs (by simp [h])
    have h1 : ¬ (c = '.' ∧ atSepOrEnd t = true) := by
      rintro ⟨hc1, h⟩
      cases t with
      | nil => exact hd (by simp [hc1])
      | cons c1 t1 =>
        simp [atSepOrEnd] at h
        exact ht (by simp [h])
    have h2 : ¬ (c = '.' ∧ t.head? = some '.' ∧ atSepOrEnd t.tail = true) := by
      rintro ⟨hc1, hh, h⟩
      cases t with
      | nil => simp at hh
      | cons c1 t1 =>
        simp at hh
        cases t1 with
        | nil => exact hdd (by simp [hc1, hh])
        | cons c2 t2 =>
          simp [atSepOrEnd] at h
          exact ht (by simp [h])
    simp only [cleanLoop, hc, h1, h2, if_false]
    rw [cleanLoop_copy rooted t _ dd ht]
    simp

/-- The mirror path of a name that is a single path element is `/tmp/` and the name. -/
theorem filepathJoin_tmp (name : String) (hne : name ≠ "") (hs : '/' ∉ name.data)
    (hd : name ≠ ".") (hdd : name ≠ "..") : filepathJoin ["/tmp", name] = "/tmp/" ++ name := by
  have hne1 : name.data ≠ [] := fun h => hne (String.ext h)
  have hd1 : name.data ≠ ['.'] := fun h => hd (String.ext h)
  have hdd1 : name.data ≠ ['.', '.'] := fun h => hdd (String.ext h)
  have hjoin : (joinSlash ["/tmp", name]).data = '/' :: 't' :: 'm' :: 'p' :: '/' :: name.data := by
    simp [joinSlash]
  have h0 : filepathJoin ["/tmp", name] = filepathClean (joinSlash ["/tmp", name]) := by
    simp [filepathJoin]
  rw [h0]
  unfold filepathClean
  rw [hjoin]
  apply String.ext
  have hpre : cleanLoop true .start ('t' :: 'm' :: 'p' :: '/' :: name.data) ['/'] 1 =
      cleanLoop true .start name.data ['p', 'm', 't', '/'] 1 := by
    simp [cleanLoop, cleanSep, atSepOrEnd]
  simp only [cleanChars, decide_True, if_true, hpre]
  rw [cleanLoop_start_element true name.data _ 1 hne1 hs hd1 hdd1]
  simp [cleanSep]


/-- Claim C9.  The mirror path of `NewRepoManager` is the same whatever the URL and the
branch, and for a name that is one path element (not empty, without a separator,
neither `.` nor `..`, as the name of every cluster object is) it is `/tmp/` followed by
the name.  When `os.Stat` reports that the path does not exist, `CloneOrPull` issues one
clone, into that path, at the reference `refs/heads/<branch>`, and returns its error;
it opens nothing and pulls nothing.  Otherwise (in particular when the path exists)
`CloneOrPull` runs `pullRepo` and returns its error: it issues no clone, and once the
repository and its worktree are opened it pulls from `origin`.  The outcome of
`os.Stat` on the path is all that decides between the two. -/
theorem NewRepoManager_CloneOrPull_by_existence (url branch name : String) (w : GitWorld) :
    (name ≠ "" → '/' ∉ name.data → name ≠ "." → name ≠ ".." →
        (NewRepoManager url branch name).RepoDir = "/tmp/" ++ name) ∧
      (∀ url2 branch2, (NewRepoManager url2 branch2 name).RepoDir =
        (NewRepoManager url branch name).RepoDir) ∧
      (osIsNotExist (w.stat (NewRepoManager url branch name).RepoDir) = true →
        ((NewRepoManager url branch name).CloneOrPull w).trace =
            [.stat (NewRepoManager url branch name).RepoDir,
             .plainClone (NewRepoManager url branch name).RepoDir url
               ("refs/heads/" ++ branch)] ∧
          ((NewRepoManager url branch name).CloneOrPull w).err =
            w.plainClone (NewRepoManager url branch name).RepoDir url
              ("refs/heads/" ++ branch)) ∧
      (osIsNotExist (w.stat (NewRepoManager url branch name).RepoDir) = false →
        ((NewRepoManager url branch name).CloneOrPull w).trace =
            .stat (NewRepoManager url branch name).RepoDir ::
              ((NewRepoManager url branch name).pullRepo w).trace ∧
          ((NewRepoManager url branch name).CloneOrPull w).err =
            ((NewRepoManager url branch name).pullRepo w).err ∧
          (∀ p u r, Event.plainClone p u r ∉
            ((NewRepoManager url branch name).CloneOrPull w).trace) ∧
          (w.plainOpen (NewRepoManager url branch name).RepoDir = none →
            w.worktree (NewRepoManager url branch name).RepoDir = none →
            ((NewRepoManager url branch name).CloneOrPull w).trace =
                [.stat (NewRepoManager url branch name).RepoDir,
                 .plainOpen (NewRepoManager url branch name).RepoDir,
                 .worktree (NewRepoManager url branch name).RepoDir,
                 .pull (NewRepoManager url branch name).RepoDir "origin"] ∧
              ((NewRepoManager url branch name).CloneOrPull w).err =
                w.pull (NewRepoManager url branch name).RepoDir "origin")) ∧
      (w.stat (NewRepoManager url branch name).RepoDir = none →
        osIsNotExist (w.stat (NewRepoManager url branch name).RepoDir) = false) := by
  refine ⟨?_, fun u b => rfl, ?_, ?_, ?_⟩
  · intro hne hs hd hdd
    simp [NewRepoManager, filepathJoin_tmp name hne hs hd hdd]
  · intro h
    simp only [RepoManager.CloneOrPull, h, if_true, RepoManager.cloneRepo]
    exact ⟨rfl, rfl⟩
  · intro h
    refine ⟨?_, ?_, ?_, ?_⟩
    · simp [RepoManager.CloneOrPull, h]
    · simp [RepoManager.CloneOrPull, h]
    · intro p u r
      simp only [RepoManager.CloneOrPull, RepoManager.pullRepo, h]
      cases w.plainOpen (NewRepoManager url branch name).RepoDir <;>
        cases w.worktree (NewRepoManager url branch name).RepoDir <;> simp
    · intro ho hw
      simp [RepoManager.CloneOrPull, RepoManager.pullRepo, h, ho, hw]
  · intro h
    simp [h, osIsNotExist]

/-- Witness of claim C9: the deployment `demo` without a local mirror. -/
theorem NewRepoManager_CloneOrPull_by_existence_witness :
    "demo" ≠ "" ∧ '/' ∉ "demo".data ∧ "demo" ≠ "." ∧ "demo" ≠ ".." ∧
      (NewRepoManager "https://example.com/repo.git" "main" "demo").RepoDir = "/tmp/" ++ "demo" ∧
      osIsNotExist (freshGit.stat
        (NewRepoManager "https://example.com/repo.git" "main" "demo").RepoDir) = true ∧
      ((NewRepoManager "https://example.com/repo.git" "main" "demo").CloneOrPull freshGit).err =
        none :=
  ⟨by decide, by decide, by decide, by decide,
    (NewRepoManager_CloneOrPull_by_existence "https://example.com/repo.git" "main" "demo"
      freshGit).1 (by decide) (by decide) (by decide) (by decide),
    rfl,
    ((NewRepoManager_CloneOrPull_by_existence "https://example.com/repo.git" "main" "demo"
      freshGit).2.2.1 rfl).2⟩

/-! ## `applyObject` on the in-memory store -/

/-- Claim C7.  On the in-memory store, when no object of the type and name of `obj` is
stored in the namespace "default": the first `applyObject` on `obj` succeeds with one
read and one create, the second one on the same `obj` succeeds with one read and one
update, so the two together write one create followed by one update and never two
creates; the read, the create and the update are addressed to the namespace "default"
whatever the namespace of `obj`; the update carries the token `t1` that the store
holds after the first call, and the token `t2` it holds after the second call is
strictly greater. -/
theorem applyObject_twice_create_then_update (s : MemStore) (obj : Unstructured)
    (habsent : s.lookup { obj with Namespace := "default" } = none) :
    (applyObject memClient s obj).err = none ∧
      (applyObject memClient s obj).trace =
        [.applyObject obj,
         .get { Namespace := "default", Name := obj.Name } { obj with Namespace := "default" },
         .create { obj with Namespace := "default" }] ∧
      (applyObject memClient (applyObject memClient s obj).state obj).err = none ∧
      ∃ t1 t2 : Nat,
        ((applyObject memClient s obj).state.lookup { obj with Namespace := "default" }).map
            (fun stored => stored.ResourceVersion) = some t1 ∧
          (applyObject memClient (applyObject memClient s obj).state obj).trace =
            [.applyObject obj,
             .get { Namespace := "default", Name := obj.Name }
               { obj with Namespace := "default" },
             .update { obj with Namespace := "default", ResourceVersion := t1 }] ∧
          storeWrites ((applyObject memClient s obj).trace ++
              (applyObject memClient (applyObject memClient s obj).state obj).trace) =
            [.create { obj with Namespace := "default" },
             .update { obj with Namespace := "default", ResourceVersion := t1 }] ∧
          ((applyObject memClient (applyObject memClient s obj).state obj).state.lookup
              { obj with Namespace := "default" }).map
            (fun stored => stored.ResourceVersion) = some t2 ∧
          t1 < t2 := by
  have hid : ∀ a b : Nat, sameIdentity { obj with Namespace := "default", ResourceVersion := a }
      { obj with Namespace := "default", ResourceVersion := b } = true := by
    intro a b; simp [sameIdentity]
  have hid0 : ∀ b : Nat, sameIdentity { obj with Namespace := "default" }
      { obj with Namespace := "default", ResourceVersion := b } = true := by
    intro b; simp [sameIdentity]
  have h1 : applyObject memClient s obj =
      { err := none, state := { obj with Namespace := "default", ResourceVersion := 1 } :: s,
        trace := [.applyObject obj,
         .get { Namespace := "default", Name := obj.Name } { obj with Namespace := "default" },
         .create { obj with Namespace := "default" }] } := by
    simp [applyObject, memClient, MemStore.get, MemStore.create, ObjectKeyFromObject, habsent]
  have h2 : applyObject memClient
      ({ obj with Namespace := "default", ResourceVersion := 1 } :: s) obj =
      { err := none,
        state := { obj with Namespace := "default", ResourceVersion := 2 } ::
          MemStore.replace s { obj with Namespace := "default", ResourceVersion := 2 },
        trace := [.applyObject obj,
         .get { Namespace := "default", Name := obj.Name } { obj with Namespace := "default" },
         .update { obj with Namespace := "default", ResourceVersion := 1 }] } := by
    simp [applyObject, memClient, MemStore.get, MemStore.update, MemStore.lookup,
      MemStore.replace, ObjectKeyFromObject, hid, hid0, List.find?]
  rw [h1]
  refine ⟨rfl, rfl, ?_, 1, 2, ?_, ?_, ?_, ?_, by decide⟩
  · simp only [h2]
  · simp [MemStore.lookup, List.find?, hid0]
  · simp only [h2]
  · simp only [h2]
    simp [storeWrites]
  · simp only [h2]
    simp [MemStore.lookup, List.find?, hid0]

/-- Witness of claim C7: a document of the namespace "staging", on a store that holds
an object of its type and name in that namespace and none in "default". -/
theorem applyObject_twice_create_then_update_witness :
    MemStore.lookup [sampleObject "a"] { sampleObject "a" with Namespace := "default" } = none ∧
      (applyObject memClient [sampleObject "a"] (sampleObject "a")).err = none ∧
      (applyObject memClient [sampleObject "a"] (sampleObject "a")).trace =
        [.applyObject (sampleObject "a"),
         .get { Namespace := "default", Name := "a" }
           { sampleObject "a" with Namespace := "default" },
         .create { sampleObject "a" with Namespace := "default" }] :=
  ⟨by decide,
    (applyObject_twice_create_then_update [sampleObject "a"] (sampleObject "a") (by decide)).1,
    (applyObject_twice_create_then_update [sampleObject "a"] (sampleObject "a")
      (by decide)).2.1⟩

/-! ## `ApplyManifests` -/

/-- A stream of documents only is the stream of its documents. -/
theorem allDocuments_eq (data : List DecodeResult) (h : allDocuments data = true) :
    data = (documentsOf data).map DecodeResult.doc := by
  induction data with
  | nil => rfl
  | cons r rest ih =>
    cases r with
    | doc obj =>
      simp only [allDocuments] at h
      simp only [documentsOf, List.map_cons]
      rw [← ih h]
    | fail e => simp [allDocuments] at h

/-- The decode loop over two streams of documents, one after the other. -/
theorem applyDocuments_append {σ : Type} (k : Client σ) (a b : List Unstructured) (st : σ) :
    applyDocuments k ((a ++ b).map DecodeResult.doc) st =
      match (applyDocuments k (a.map DecodeResult.doc) st).err with
      | some err =>
        { err := some err, state := (applyDocuments k (a.map DecodeResult.doc) st).state,
          trace := (applyDocuments k (a.map DecodeResult.doc) st).trace }
      | none =>
        { err := (applyDocuments k (b.map DecodeResult.doc)
            (applyDocuments k (a.map DecodeResult.doc) st).state).err,
          state := (applyDocuments k (b.map DecodeResult.doc)
            (applyDocuments k (a.map DecodeResult.doc) st).state).state,
          trace := (applyDocuments k (a.map DecodeResult.doc) st).trace ++
            (applyDocuments k (b.map DecodeResult.doc)
              (applyDocuments k (a.map DecodeResult.doc) st).state).trace } := by
  induction a generalizing st with
  | nil => simp [applyDocuments]
  | cons obj rest ih =>
    have e1 : (obj :: rest ++ b).map DecodeResult.doc =
        DecodeResult.doc obj :: (rest ++ b).map DecodeResult.doc := rfl
    have e2 : (obj :: rest).map DecodeResult.doc =
        DecodeResult.doc obj :: rest.map DecodeResult.doc := rfl
    rw [e1, e2]
    simp only [applyDocuments]
    cases h : (applyObject k st obj).err with
    | some e => simp
    | none =>
      simp only
      rw [ih]
      cases h2 : (applyDocuments k (rest.map DecodeResult.doc) (applyObject k st obj).state).err with
      | some e => simp
      | none => simp

mutual
/-- On a tree that can be read in full, the walk is the decode loop over the documents
of the tree. -/
theorem walkDir_eq_applyDocuments {σ : Type} (k : Client σ) :
    ∀ (d : FsNode) (path : String) (st : σ), wellFormedTree path d = true →
      walkDir k path d st = applyDocuments k ((manifestDocuments path d).map DecodeResult.doc) st
  | .file name read, path, st => by
    intro h
    simp only [walkDir, walkFn, FsNode.IsDir, dirFSReadFile, FsNode.ReadFile,
      manifestDocuments]
    simp only [wellFormedTree] at h
    by_cases hext : filepathExt path = ".yaml"
    · simp only [hext, if_true, Bool.and_eq_true] at h ⊢
      cases read with
      | error e => simp at h
      | ok data =>
        simp only at h
        simp [h.1]
        rw [← allDocuments_eq data h.2]
    · simp [hext, applyDocuments]
  | .dir name readDir entries, path, st => by
    intro h
    simp only [wellFormedTree, Bool.and_eq_true, Option.isNone_iff_eq_none] at h
    simp only [walkDir, walkFn, FsNode.IsDir, manifestDocuments, h.1]
    simp
    exact walkEntries_eq_applyDocuments k entries path st h.2
/-- On entries that can be read in full, the loop over them is the decode loop over
their documents. -/
theorem walkEntries_eq_applyDocuments {σ : Type} (k : Client σ) :
    ∀ (entries : List FsNode) (path : String) (st : σ), wellFormedEntries path entries = true →
      walkEntries k path entries st =
        applyDocuments k ((entriesDocuments path entries).map DecodeResult.doc) st
  | [], path, st => by
    intro _
    simp [walkEntries, entriesDocuments, applyDocuments]
  | d1 :: rest, path, st => by
    intro h
    simp only [wellFormedEntries, Bool.and_eq_true] at h
    simp only [walkEntries, entriesDocuments]
    rw [applyDocuments_append, walkDir_eq_applyDocuments k d1 _ st h.1]
    cases h2 : (applyDocuments k
        ((manifestDocuments (filepathJoin [path, d1.Name]) d1).map DecodeResult.doc) st).err with
    | some e => simp
    | none =>
      simp only
      rw [walkEntries_eq_applyDocuments k rest path _ h.2]
end

/-- The decode loop over documents whose applies all succeed calls `applyObject` on each,
in order, and returns `nil`. -/
theorem applyDocuments_all_succeed {σ : Type} (k : Client σ) (docs : List Unstructured)
    (st : σ) (h : ∀ i, i < docs.length → nthApplyErr k st docs i = none) :
    (applyDocuments k (docs.map DecodeResult.doc) st).err = none ∧
      applyCalls (applyDocuments k (docs.map DecodeResult.doc) st).trace = docs := by
  induction docs generalizing st with
  | nil => simp [applyDocuments, applyCalls]
  | cons obj rest ih =>
    have h0 : (applyObject k st obj).err = none := h 0 (by simp)
    have hrest := ih (applyObject k st obj).state
      (fun i hi => h (i + 1) (by simpa using hi))
    simp only [List.map_cons, applyDocuments, h0]
    simp [applyCalls_append, (applyObject_trace k st obj).2, hrest]

/-- The decode loop returns at the first document whose apply fails, with its error. -/
theorem applyDocuments_first_failure {σ : Type} (k : Client σ) (docs : List Unstructured)
    (st : σ) (j : Nat) (e : GoError) (hj : j < docs.length)
    (hbefore : ∀ i, i < j → nthApplyErr k st docs i = none)
    (hfail : nthApplyErr k st docs j = some e) :
    (applyDocuments k (docs.map DecodeResult.doc) st).err = some e ∧
      applyCalls (applyDocuments k (docs.map DecodeResult.doc) st).trace = docs.take (j + 1) := by
  induction docs generalizing st j with
  | nil => simp at hj
  | cons obj rest ih =>
    cases j with
    | zero =>
      have h0 : (applyObject k st obj).err = some e := hfail
      simp only [List.map_cons, applyDocuments, h0]
      simp [(applyObject_trace k st obj).2]
    | succ j =>
      have h0 : (applyObject k st obj).err = none := hbefore 0 (by simp)
      have hrest := ih (applyObject k st obj).state j (by simpa using hj)
        (fun i hi => hbefore (i + 1) (by omega)) hfail
      simp only [List.map_cons, applyDocuments, h0]
      simp [applyCalls_append, (applyObject_trace k st obj).2, hrest]

/-- The `applyObject` calls of `ApplyManifests` are those of the walk. -/
theorem ApplyManifests_ok {σ : Type} (k : Client σ) (fs : FileSystem) (dir : String) (st : σ)
    (d : FsNode) (hroot : fs.lstat dir = .ok d) :
    (ApplyManifests k fs dir st).err = (walkDir k dir d st).err ∧
      applyCalls (ApplyManifests k fs dir st).trace = applyCalls (walkDir k dir d st).trace := by
  simp [ApplyManifests, hroot, applyCalls]

/-- The walk of `ApplyManifests` on a tree that is read in full.  Let the tree at `dir`
be readable in full: every directory is listed, and every manifest file (an entry that
is not a directory and whose extension is exactly `.yaml`) has a name that `os.DirFS`
accepts, is read, and holds well-formed documents only.  If the apply of every
document succeeds, `ApplyManifests` calls `applyObject` exactly once per document, by
file in the order of the walk and by position within a file, and returns `nil`.  If the
apply of the document at position `j` (counted from 0) is the first to fail,
`ApplyManifests` calls `applyObject` on the documents up to that one, `j + 1` calls in
all, and returns the error of that apply.  On a directory and on an entry whose
extension is not `.yaml` the callback of the walk does nothing; the extensions `.yml`
and `.YAML` are not `.yaml`. -/
theorem ApplyManifests_walk_order_of_readable_tree {σ : Type} (k : Client σ) (fs : FileSystem)
    (dir : String) (st : σ) (d : FsNode) (hroot : fs.lstat dir = .ok d)
    (hwf : wellFormedTree dir d = true) :
    ((∀ i, i < (manifestDocuments dir d).length →
          nthApplyErr k st (manifestDocuments dir d) i = none) →
        (ApplyManifests k fs dir st).err = none ∧
        applyCalls (ApplyManifests k fs dir st).trace = manifestDocuments dir d ∧
        (applyCalls (ApplyManifests k fs dir st).trace).length =
          (manifestDocuments dir d).length) ∧
      (∀ j e, j < (manifestDocuments dir d).length →
        (∀ i, i < j → nthApplyErr k st (manifestDocuments dir d) i = none) →
        nthApplyErr k st (manifestDocuments dir d) j = some e →
        (ApplyManifests k fs dir st).err = some e ∧
        applyCalls (ApplyManifests k fs dir st).trace = (manifestDocuments dir d).take (j + 1) ∧
        (applyCalls (ApplyManifests k fs dir st).trace).length = j + 1) ∧
      (∀ (path : String) (entry : FsNode) (s : σ),
        entry.IsDir = true ∨ filepathExt path ≠ ".yaml" →
        (walkFn k path entry none s).err = none ∧ (walkFn k path entry none s).trace = []) ∧
      filepathExt "manifests/b.yml" = ".yml" ∧ filepathExt "manifests/c.YAML" = ".YAML" := by
  have hA := ApplyManifests_ok k fs dir st d hroot
  rw [walkDir_eq_applyDocuments k d dir st hwf] at hA
  refine ⟨?_, ?_, ?_, by decide, by decide⟩
  · intro h
    have hB := applyDocuments_all_succeed k (manifestDocuments dir d) st h
    rw [hA.1, hA.2, hB.1, hB.2]
    exact ⟨rfl, rfl, rfl⟩
  · intro j e hj hbefore hfail
    have hB := applyDocuments_first_failure k (manifestDocuments dir d) st j e hj hbefore hfail
    rw [hA.1, hA.2, hB.1, hB.2]
    refine ⟨rfl, rfl, ?_⟩
    simp
    omega
  · intro path entry s h
    rcases h with h | h
    · simp [walkFn, h]
    · simp [walkFn, h]

/-- An unrooted tree that is read in full: two manifest files holding three documents,
among files with the extensions `.md`, `.yml` and `.YAML` and a directory named
`d.yaml`. -/
theorem ApplyManifests_walk_order_unrooted_example :
    (sampleFs "manifests" mixedTree).lstat "manifests" = .ok mixedTree ∧
      wellFormedTree "manifests" mixedTree = true ∧
      manifestDocuments "manifests" mixedTree =
        [sampleObject "a1", sampleObject "a2", sampleObject "e"] ∧
      (∀ i, i < (manifestDocuments "manifests" mixedTree).length →
        nthApplyErr memClient [] (manifestDocuments "manifests" mixedTree) i = none) ∧
      (ApplyManifests memClient (sampleFs "manifests" mixedTree) "manifests" []).err = none ∧
      applyCalls (ApplyManifests memClient (sampleFs "manifests" mixedTree) "manifests" []).trace =
        manifestDocuments "manifests" mixedTree :=
  ⟨rfl, by decide, by decide, by decide,
    ((ApplyManifests_walk_order_of_readable_tree memClient (sampleFs "manifests" mixedTree) "manifests"
      [] mixedTree rfl (by decide)).1 (by decide)).1,
    ((ApplyManifests_walk_order_of_readable_tree memClient (sampleFs "manifests" mixedTree) "manifests"
      [] mixedTree rfl (by decide)).1 (by decide)).2.1⟩

/-- The decode loop does not tell a decode failure from the end of the stream. -/
theorem applyDocuments_cutAtFailure {σ : Type} (k : Client σ) (data : List DecodeResult)
    (st : σ) : applyDocuments k (cutAtFailure data) st = applyDocuments k data st := by
  induction data generalizing st with
  | nil => rfl
  | cons r rest ih =>
    cases r with
    | fail e => simp [cutAtFailure, applyDocuments]
    | doc obj => simp only [cutAtFailure, applyDocuments, ih]

theorem FsNode.cut_Name (d : FsNode) : d.cut.Name = d.Name := by
  cases d with
  | file name read => cases read <;> simp [FsNode.cut, FsNode.Name]
  | dir name readDir entries => simp [FsNode.cut, FsNode.Name]

mutual
theorem walkDir_cut {σ : Type} (k : Client σ) :
    ∀ (d : FsNode) (path : String) (st : σ), walkDir k path d.cut st = walkDir k path d st
  | .file name (.ok data), path, st => by
    simp only [FsNode.cut, walkDir, walkFn, FsNode.IsDir, dirFSReadFile, FsNode.ReadFile]
    by_cases hacc : dirFSAccepts path = true
    · simp only [hacc, if_true, applyDocuments_cutAtFailure]
    · simp [hacc]
  | .file name (.error e), path, st => by simp only [FsNode.cut]
  | .dir name readDir entries, path, st => by
    simp only [FsNode.cut, walkDir, walkFn, FsNode.IsDir]
    simp only [Bool.true_or, if_true]
    cases readDir with
    | some e => rfl
    | none => exact walkEntries_cut k entries path st
theorem walkEntries_cut {σ : Type} (k : Client σ) :
    ∀ (entries : List FsNode) (path : String) (st : σ),
      walkEntries k path (cutEntries entries) st = walkEntries k path entries st
  | [], path, st => by simp only [cutEntries]
  | d1 :: rest, path, st => by
    simp only [cutEntries, walkEntries, FsNode.cut_Name, walkDir_cut k d1,
      walkEntries_cut k rest]
end

/-- A name that starts with a slash is refused by `os.DirFS`. -/
theorem dirFSAccepts_rooted (name : String) (h : name.data.head? = some '/') :
    dirFSAccepts name = false := by
  have hd : name.data ≠ ['.'] := by
    intro h2; rw [h2] at h; simp at h
  have hne : name ≠ "." := fun h2 => hd (by rw [h2])
  cases hdata : name.data with
  | nil => rw [hdata] at h; simp at h
  | cons c t =>
    rw [hdata] at h
    simp at h
    simp [dirFSAccepts, fsValidPath, hne, hdata, validPathLoop, h, validElement]

theorem cleanBacktrack_last (out : List Char) :
    1 < out.length → out.getLast? = some '/' → (cleanBacktrack 1 out).getLast? = some '/' := by
  induction out with
  | nil => intro h; simp at h
  | cons c rest ih =>
    intro hlen hlast
    have hrest : rest ≠ [] := by
      intro h; rw [h] at hlen; simp at hlen
    have hlast2 : rest.getLast? = some '/' := by
      cases rest with
      | nil => exact absurd rfl hrest
      | cons a l => simpa [List.getLast?_cons_cons] using hlast
    simp only [cleanBacktrack]
    split
    · rename_i h
      exact ih h.1 hlast2
    · exact hlast2

theorem cons_last (c : Char) (out : List Char) (h : out.getLast? = some '/') :
    (c :: out).getLast? = some '/' := by
  cases out with
  | nil => simp at h
  | cons a l => simpa [List.getLast?_cons_cons] using h

theorem cleanSep_last (out : List Char) (h : out.getLast? = some '/') :
    (cleanSep true out).getLast? = some '/' := by
  unfold cleanSep
  split
  · exact cons_last _ _ h
  · exact h

theorem cleanDotDot_last (out : List Char) (h : out.getLast? = some '/') :
    (cleanDotDot true out 1).1.getLast? = some '/' ∧ (cleanDotDot true out 1).2 = 1 := by
  unfold cleanDotDot
  split
  · rename_i hl
    exact ⟨cleanBacktrack_last out hl h, rfl⟩
  · simp [h]

/-- The buffer of a rooted `filepath.Clean` keeps its leading separator. -/
theorem cleanLoop_last (t : List Char) :
    ∀ (mode : CleanMode) (out : List Char), out.getLast? = some '/' →
      (cleanLoop true mode t out 1).getLast? = some '/' := by
  induction t with
  | nil => intro mode out h; simpa [cleanLoop] using h
  | cons c t ih =>
    intro mode out h
    cases mode with
    | skip => simp only [cleanLoop]; exact ih _ _ h
    | copy =>
      simp only [cleanLoop]
      split
      · exact ih _ _ h
      · exact ih _ _ (cons_last _ _ h)
    | start =>
      simp only [cleanLoop]
      split
      · exact ih _ _ h
      · split
        · exact ih _ _ h
        · split
          · rw [(cleanDotDot_last out h).2]
            exact ih _ _ (cleanDotDot_last out h).1
          · exact ih _ _ (cons_last _ _ (cleanSep_last out h))

/-- Go `filepath.Clean` of a rooted path is rooted. -/
theorem cleanChars_rooted (t : List Char) : (cleanChars ('/' :: t)).head? = some '/' := by
  have h := cleanLoop_last t .start ['/'] rfl
  simp only [cleanChars, decide_True, if_true]
  split
  · rename_i h0
    have : cleanLoop true CleanMode.start t ['/'] 1 = [] := List.length_eq_zero.mp h0
    rw [this] at h
    simp at h
  · rw [List.head?_reverse]
    exact h

/-- Go `filepath.Join` of a rooted path and one more element is rooted. -/
theorem filepathJoin_rooted (path name : String) (h : path.data.head? = some '/') :
    (filepathJoin [path, name]).data.head? = some '/' := by
  have hne : path ≠ "" := by
    intro h2; rw [h2] at h; simp at h
  cases hdata : path.data with
  | nil => rw [hdata] at h; simp at h
  | cons c t =>
    rw [hdata] at h
    simp at h
    have hj : (joinSlash [path, name]).data = '/' :: (t ++ '/' :: name.data) := by
      simp [joinSlash, hdata, h]
    simp only [filepathJoin, hne, ne_eq, not_false_eq_true, if_true, filepathClean, hj]
    exact cleanChars_rooted _

/-- The callback of the walk, met with a rooted path, leaves the store as it is and
issues no call. -/
theorem walkFn_rooted {σ : Type} (k : Client σ) (path : String) (d : FsNode) (err : error)
    (st : σ) (h : path.data.head? = some '/') :
    (walkFn k path d err st).trace = [] ∧ (walkFn k path d err st).state = st := by
  unfold walkFn
  split
  · exact ⟨rfl, rfl⟩
  · split
    · exact ⟨rfl, rfl⟩
    · simp [dirFSReadFile, dirFSAccepts_rooted path h]

mutual
/-- The walk from a rooted path leaves the store as it is and issues no call. -/
theorem walkDir_rooted {σ : Type} (k : Client σ) :
    ∀ (d : FsNode) (path : String) (st : σ), path.data.head? = some '/' →
      (walkDir k path d st).trace = [] ∧ (walkDir k path d st).state = st
  | .file name read, path, st => by
    intro h
    simp only [walkDir]
    exact walkFn_rooted k path _ none st h
  | .dir name readDir entries, path, st => by
    intro h
    have h1 := walkFn_rooted k path (.dir name readDir entries) none st h
    simp only [walkDir]
    split
    · exact h1
    · split
      · exact ⟨(walkFn_rooted k path _ _ _ h).1,
          (walkFn_rooted k path _ _ _ h).2.trans h1.2⟩
      · exact ⟨(walkEntries_rooted k entries path _ h).1,
          (walkEntries_rooted k entries path _ h).2.trans h1.2⟩
/-- The loop over the entries of a directory at a rooted path leaves the store as it is
and issues no call. -/
theorem walkEntries_rooted {σ : Type} (k : Client σ) :
    ∀ (entries : List FsNode) (path : String) (st : σ), path.data.head? = some '/' →
      (walkEntries k path entries st).trace = [] ∧ (walkEntries k path entries st).state = st
  | [], path, st => by
    intro _
    simp [walkEntries]
  | d1 :: rest, path, st => by
    intro h
    have h1 := walkDir_rooted k d1 (filepathJoin [path, d1.Name]) st
      (filepathJoin_rooted path d1.Name h)
    have h2 := walkEntries_rooted k rest path (walkDir k (filepathJoin [path, d1.Name]) d1 st).state h
    simp only [walkEntries]
    split
    · exact h1
    · exact ⟨by simp [h1.1, h2.1], h2.2.trans h1.2⟩
end

/-- The path `Reconcile` hands to `ApplyManifests` is rooted, whatever the deployment. -/
theorem manifestsPath_rooted (url branch name subPath : String) :
    ((NewRepoManager url branch name).GetManifestsPath subPath).data.head? = some '/' := by
  unfold RepoManager.GetManifestsPath NewRepoManager
  exact filepathJoin_rooted _ _ (filepathJoin_rooted "/tmp" name rfl)

/-- Claim C5 fails on the code.  `ApplyManifests` reads every manifest file with
`fs.ReadFile(os.DirFS("/"), path)`, which refuses a rooted name, and the path that
`Reconcile` hands to it is rooted whatever the deployment: in every cycle the
`ApplyManifests` call issues no `applyObject`, create or update call and leaves the
store as it found it.  On the end-to-end example, where `manifests/a.yaml` holds one
well-formed document whose apply on the empty store would succeed, `ApplyManifests`
returns the error of the read and calls `applyObject` on nothing, and `Reconcile`
returns that error and records "ApplyFailed". -/
theorem ApplyManifests_rooted_dir_applies_nothing :
    (∀ (σ : Type) (env : Env σ) (st : σ) (deployment : GitOpsDeployment),
        applyCalls (cycleApply env st deployment).trace = [] ∧
        storeWrites (cycleApply env st deployment).trace = [] ∧
        (cycleApply env st deployment).state = st) ∧
      manifestDocuments "/tmp/demo/manifests" manifestTree = [sampleObject "a"] ∧
      nthApplyErr memClient [] (manifestDocuments "/tmp/demo/manifests" manifestTree) 0 = none ∧
      (ApplyManifests memClient (sampleFs "/tmp/demo/manifests" manifestTree)
          "/tmp/demo/manifests" []).err =
        some (errInvalidName "/tmp/demo/manifests/a.yaml") ∧
      applyCalls (ApplyManifests memClient (sampleFs "/tmp/demo/manifests" manifestTree)
          "/tmp/demo/manifests" []).trace = [] ∧
      (Reconcile (sampleEnv freshGit manifestTree "1m" none) [] sampleReq).err =
        some (errInvalidName "/tmp/demo/manifests/a.yaml") ∧
      ((Reconcile (sampleEnv freshGit manifestTree "1m" none) [] sampleReq).deployment.map
          (fun d => d.Status.Conditions.map (fun c => (c.Status, c.Reason)))) =
        some [(ConditionStatus.ConditionFalse, "ApplyFailed")] ∧
      applyCalls (Reconcile (sampleEnv freshGit manifestTree "1m" none) []
        sampleReq).trace = [] := by
  refine ⟨?_, by decide, by decide, by decide, by decide, by decide, by decide, by decide⟩
  intro σ env st deployment
  have hroot := manifestsPath_rooted deployment.Spec.RepoURL deployment.Spec.Branch
    deployment.Name deployment.Spec.Path
  unfold cycleApply ApplyManifests
  split
  · simp [applyCalls, storeWrites]
  · rename_i d _
    have hw := walkDir_rooted env.client d _ st hroot
    simp [applyCalls, storeWrites, hw.1, hw.2]

end GitOps
